import Mathlib

/-!
Verification of the Cato aggregation engine (src/core/aggregator.py and
src/core/store.py) against its natural-language specification.

Shallow-embedding conventions used throughout this development:

* Python `datetime` values are modelled by `PyDateTime`: an epoch time in
  whole seconds (`Int`) plus a timezone-awareness flag (`tzinfo is None`
  becomes `tzAware = false`).  Raw (pre-parse) timestamp fields of the
  loosely-typed record dictionaries are modelled as `Option Int` holding the
  already-parsed epoch value; `none` stands for an absent, empty or
  unparseable value (the aggregator's `_parse_timestamp` returns `None` in
  exactly those cases, and a present `datetime` is always truthy in Python).
* Python `str` values are Lean `String`s.  The few string operations the
  code uses (`lower`, `replace(" ", "_")`, `split("_")`, `startswith`,
  `isdigit`, `int(...)`) are re-implemented structurally over the character
  list so that they are kernel-computable; `lower` is modelled on the ASCII
  range, which covers every identifier the code manipulates.
* Python dictionaries are modelled as insertion-ordered association lists:
  `dictInsert` overwrites an existing key in place (as CPython does) and
  `dictLookup` finds the unique binding.
* Python `hash(s)` used in the duplicate-detection grouping key is modelled
  as the string itself, i.e. as an injective hash.
* Floats are modelled as exact numbers: `Int` where the code only adds,
  subtracts and compares timestamps, `ℚ` where it divides
  (`_calculate_parallelization_metrics`), and `ℝ` for the power-law
  position curve (`linear_pos ** exponent` becomes `Real.rpow`).
-/

namespace Cato

/-! ### Python-style primitives -/

/-- ASCII lower-casing of one character, modelling `str.lower` on the
identifiers this code base manipulates. -/
def asciiLowerChar (c : Char) : Char :=
  if c.isUpper then Char.ofNat (c.toNat + 32) else c

/-- ASCII `str.lower`. -/
def pyLower (s : String) : String :=
  ⟨s.data.map asciiLowerChar⟩

/-- Character-wise `str.replace(" ", "_")`. -/
def spacesToUnderscores (s : String) : String :=
  ⟨s.data.map (fun c => if c = ' ' then '_' else c)⟩

/-- The slug rule of `_resolve_slug_dependencies`: lowercase, spaces to
underscores. -/
def pySlug (s : String) : String :=
  spacesToUnderscores (pyLower s)

/-- Python `str.isdigit` (ASCII model): non-empty and every character a
digit. -/
def pyIsDigit (s : String) : Bool :=
  !s.data.isEmpty && s.data.all Char.isDigit

/-- Everything before the first `'_'`, i.e. Python `s.split("_")[0]`. -/
def headTokenBeforeUnderscore (s : String) : String :=
  ⟨s.data.takeWhile (fun c => c ≠ '_')⟩

/-- Boolean check that `p` is a prefix of `s`, modelling `str.startswith`. -/
def strStartsWith (s p : String) : Bool :=
  p.data.isPrefixOf s.data

/-- Numeric value of a digit list, most significant first. -/
def digitsVal (cs : List Char) : Nat :=
  cs.foldl (fun a c => a * 10 + (c.toNat - '0'.toNat)) 0

/-- Does a character list form a valid Python integer-literal digit part:
non-empty, digits possibly separated by single underscores, starting and
ending with a digit. -/
def pyDigitsOk : List Char → Bool
  | [] => false
  | [c] => c.isDigit
  | c :: '_' :: rest => c.isDigit && pyDigitsOk rest
  | c :: rest => c.isDigit && pyDigitsOk rest

/-- Python whitespace stripping (ASCII model), for `int(str)`. -/
def pyStrip (s : String) : List Char :=
  (s.data.dropWhile Char.isWhitespace).reverse.dropWhile Char.isWhitespace |>.reverse

/-- Model of Python `int(str)`: optional sign, digits with optional single
underscores between them; `none` models a raised `ValueError`. -/
def pyInt? (s : String) : Option Int :=
  match pyStrip s with
  | '-' :: rest => if pyDigitsOk rest then some (-(digitsVal (rest.filter Char.isDigit) : Int)) else none
  | '+' :: rest => if pyDigitsOk rest then some ((digitsVal (rest.filter Char.isDigit) : Int)) else none
  | cs => if pyDigitsOk cs then some ((digitsVal (cs.filter Char.isDigit) : Int)) else none

/-- Truthiness of an optional string field of a record dictionary: `None`
and the empty string are falsy. -/
def strTruthy : Option String → Bool
  | none => false
  | some s => !s.isEmpty

/-- First truthy value of a chain `a or b or ...` of optional string
fields. -/
def firstTruthy : List (Option String) → Option String
  | [] => none
  | o :: rest => if strTruthy o then o else firstTruthy rest

/-! ### Insertion-ordered dictionaries -/

/-- Insert into an insertion-ordered association list, overwriting an
existing binding in place exactly as a CPython `dict` does. -/
def dictInsert {α : Type} (m : List (String × α)) (k : String) (v : α) : List (String × α) :=
  match m with
  | [] => [(k, v)]
  | (k', v') :: rest => if k' = k then (k, v) :: rest else (k', v') :: dictInsert rest k v

/-- Lookup in an association list (first binding wins; bindings built by
`dictInsert` have unique keys). -/
def dictLookup {α : Type} (m : List (String × α)) (k : String) : Option α :=
  match m with
  | [] => none
  | (k', v) :: rest => if k' = k then some v else dictLookup rest k

/-- Keys of an association list. -/
def dictKeys {α : Type} (m : List (String × α)) : List String :=
  m.map Prod.fst

/-- Lookup by natural-number key (used for index-keyed assignments). -/
def natLookup {α : Type} (m : List (Nat × α)) (k : Nat) : Option α :=
  match m with
  | [] => none
  | (k', v) :: rest => if k' = k then some v else natLookup rest k

/-! ### Indexed list helpers -/

/-- Pair every element with its index, starting at `n`. -/
def withIdxFrom {α : Type} (n : Nat) : List α → List (Nat × α)
  | [] => []
  | a :: as => (n, a) :: withIdxFrom (n + 1) as

/-- Pair every element with its index (Python `enumerate`). -/
def withIdx {α : Type} (l : List α) : List (Nat × α) :=
  withIdxFrom 0 l

/-- Map a function that also receives the element's position. -/
def mapWithIdx {α β : Type} (f : Nat → α → β) (l : List α) : List β :=
  (withIdx l).map (fun p => f p.1 p.2)

/-- Append-if-absent deduplication, preserving first-occurrence order
(the `if dep_str not in ...: append` idiom). -/
def dedupAppend (acc : List String) (l : List String) : List String :=
  l.foldl (fun a d => if d ∈ a then a else a ++ [d]) acc

/-! ### Data model (src/core/store.py) -/

/-- A Python `datetime`: epoch seconds and whether `tzinfo` is set. -/
structure PyDateTime where
  time : Int
  tzAware : Bool
deriving DecidableEq

/-- A scalar Python value, for the free-form `metadata` / `data` bags. -/
inductive PyVal where
  | str (s : String)
  | int (n : Int)
  | bool (b : Bool)
  | null
deriving DecidableEq

/-- Denormalized task dataclass (store.py `Task`).  `status`, `priority`
are the `Literal` strings of the source. -/
structure Task where
  id : String
  name : String := ""
  description : String := ""
  status : String := "todo"
  priority : String := "medium"
  progressPercent : Int := 0
  createdAt : PyDateTime
  startedAt : Option PyDateTime := none
  completedAt : Option PyDateTime := none
  updatedAt : PyDateTime
  estimatedHours : Int := 0
  actualHours : Int := 0
  parentTaskId : Option String := none
  parentTaskName : Option String := none
  isSubtask : Bool := false
  subtaskIndex : Option Int := none
  projectId : String := ""
  projectName : String := ""
  assignedAgentId : Option String := none
  assignedAgentName : Option String := none
  assignedAgentRole : Option String := none
  dependencyIds : List String := []
  dependentTaskIds : List String := []
  timelineLinearPosition : ℚ := 0
  timelineScaledPosition : ℚ := 0
  timelineScaleExponent : ℚ := 2/5
  labels : List String := []
  metadata : List (String × PyVal) := []
deriving DecidableEq

/-- Denormalized agent dataclass (store.py `Agent`). -/
structure Agent where
  id : String
  name : String
  role : String
  skills : List String := []
  currentTaskIds : List String := []
  currentTaskNames : List String := []
  completedTaskIds : List String := []
  completedTasksCount : Int := 0
  totalHoursWorked : Int := 0
  averageTaskDurationHours : ℚ := 0
  performanceScore : ℚ := 0
  capacityUtilization : ℚ := 0
  messagesSent : Int := 0
  messagesReceived : Int := 0
  blockersReported : Int := 0
deriving DecidableEq

/-- Denormalized message dataclass (store.py `Message`). -/
structure Message where
  id : String
  timestamp : PyDateTime
  message : String
  type : String
  fromAgentId : String
  fromAgentName : String
  toAgentId : String
  toAgentName : String
  taskId : Option String := none
  taskName : Option String := none
  parentMessageId : Option String := none
  metadata : List (String × PyVal) := []
  isDuplicate : Bool := false
  duplicateGroupId : Option String := none
  duplicateCount : Nat := 0
deriving DecidableEq

/-- Denormalized event dataclass (store.py `Event`). -/
structure Event where
  id : String
  timestamp : PyDateTime
  eventType : String
  agentId : Option String := none
  agentName : Option String := none
  taskId : Option String := none
  taskName : Option String := none
  data : List (String × PyVal) := []
deriving DecidableEq

/-- Pre-calculated metrics record (store.py `Metrics`). -/
structure Metrics where
  totalTasks : Int := 0
  completedTasks : Int := 0
  inProgressTasks : Int := 0
  blockedTasks : Int := 0
  completionRate : ℚ := 0
  totalDurationMinutes : Int := 0
  averageTaskDurationHours : ℚ := 0
  peakParallelTasks : Int := 0
  averageParallelTasks : ℚ := 0
  parallelizationEfficiency : ℚ := 0
  totalAgents : Int := 0
  activeAgents : Int := 0
  tasksPerAgent : ℚ := 0
  totalBlockers : Int := 0
  blockedTaskPercentage : ℚ := 0
deriving DecidableEq

/-- Snapshot dataclass (store.py `Snapshot`). -/
structure Snapshot where
  snapshotId : String
  snapshotVersion : Int
  timestamp : PyDateTime
  projectId : Option String := none
  projectName : String := ""
  projectFilterApplied : Bool := false
  includedProjectIds : List String := []
  viewMode : String := "subtasks"
  tasks : List Task := []
  agents : List Agent := []
  messages : List Message := []
  timelineEvents : List Event := []
  metrics : Option Metrics := none
  startTime : Option PyDateTime := none
  endTime : Option PyDateTime := none
  durationMinutes : Int := 0
  taskDependencyGraph : List (String × List String) := []
  agentCommunicationGraph : List (String × List String) := []
  timezone : String := "UTC"
deriving DecidableEq

/-! ### Entity validation (the dataclass `__post_init__` checks)

Each Python dataclass runs `__post_init__` on the freshly constructed
object and raises `ValueError` on a timezone-naive timestamp; we model
construction-with-validation as a function from the would-be object to
`Except String entity`. -/

/-- store.py `Task.__post_init__`. -/
def validateTask (t : Task) : Except String Task :=
  if t.createdAt.tzAware = false then
    .error ("Task " ++ t.id ++ ": created_at must be timezone-aware")
  else if t.updatedAt.tzAware = false then
    .error ("Task " ++ t.id ++ ": updated_at must be timezone-aware")
  else if (t.startedAt.any (fun d => !d.tzAware)) = true then
    .error ("Task " ++ t.id ++ ": started_at must be timezone-aware")
  else if (t.completedAt.any (fun d => !d.tzAware)) = true then
    .error ("Task " ++ t.id ++ ": completed_at must be timezone-aware")
  else
    .ok t

/-- store.py `Message.__post_init__`. -/
def validateMessage (m : Message) : Except String Message :=
  if m.timestamp.tzAware = false then
    .error ("Message " ++ m.id ++ ": timestamp must be timezone-aware")
  else
    .ok m

/-- store.py `Event.__post_init__`. -/
def validateEvent (e : Event) : Except String Event :=
  if e.timestamp.tzAware = false then
    .error ("Event " ++ e.id ++ ": timestamp must be timezone-aware")
  else
    .ok e

/-- store.py `Snapshot.__post_init__`. -/
def validateSnapshot (s : Snapshot) : Except String Snapshot :=
  if s.timestamp.tzAware = false then
    .error "Snapshot timestamp must be timezone-aware"
  else if (s.startTime.any (fun d => !d.tzAware)) = true then
    .error "Snapshot start_time must be timezone-aware"
  else if (s.endTime.any (fun d => !d.tzAware)) = true then
    .error "Snapshot end_time must be timezone-aware"
  else
    .ok s

/-- A task value carrying a timezone-naive timestamp in some timestamp
field. -/
def taskHasNaive (t : Task) : Bool :=
  !t.createdAt.tzAware || !t.updatedAt.tzAware
    || t.startedAt.any (fun d => !d.tzAware)
    || t.completedAt.any (fun d => !d.tzAware)

/-- A snapshot value carrying a timezone-naive timestamp in some timestamp
field. -/
def snapshotHasNaive (s : Snapshot) : Bool :=
  !s.timestamp.tzAware
    || s.startTime.any (fun d => !d.tzAware)
    || s.endTime.any (fun d => !d.tzAware)

/-! ### Raw records

The aggregator's resolution and repair passes operate on loosely-typed
record dictionaries; `RawTask` / `RawMessage` model the fields those passes
read.  Timestamp fields hold the already-parsed epoch value (`none` for
absent, empty or unparseable — see the module header). -/

structure RawTask where
  id : String
  name : String := ""
  parentTaskId : Option String := none
  dependencies : List String := []
  isSubtask : Option Bool := none
  assignedAgentId : Option String := none
  agentId : Option String := none
  assignedTo : Option String := none
  createdAt : Option Int := none
  startedAt : Option Int := none
  completedAt : Option Int := none
  updatedAt : Option Int := none
deriving DecidableEq

structure RawMessage where
  fromAgentId : Option String := none
  toAgentId : Option String := none
  agentId : Option String := none
  taskId : Option String := none
  type : Option String := none
deriving DecidableEq

/-- Is this record a subtask for grouping purposes, i.e. is its
`parent_task_id` truthy? -/
def isChild (t : RawTask) : Bool :=
  strTruthy t.parentTaskId

/-- The `str(parent_task_id)` grouping key of a subtask. -/
def parentKey (t : RawTask) : String :=
  t.parentTaskId.getD ""

/-! ### ProjectMatcher (aggregator.py) -/

inductive MatchStrategy where
  | exact
  | fuzzy
  | timeframe
deriving DecidableEq

/-- The `exact` rule: equality or a `"{project_id}_"`-prefixed task id. -/
def matchExactRule (taskId projectId : String) : Bool :=
  taskId == projectId || strStartsWith taskId (projectId ++ "_")

/-- `ProjectMatcher.match_task_to_project`.  `tolerance` is the matcher's
configured fuzzy tolerance (constructor default 20); the three optional
datetimes feed the `timeframe` strategy.  The `try/except` around the two
`int(...)` calls becomes the `Option` match: any parse failure routes to
the exact-rule fallback. -/
def matchTaskToProject (tolerance : Int) (taskId projectId : String)
    (strategy : MatchStrategy)
    (projectCreated projectLastUsed taskCreated : Option Int) : Bool :=
  match strategy with
  | .exact => matchExactRule taskId projectId
  | .fuzzy =>
    match pyInt? (headTokenBeforeUnderscore taskId), pyInt? projectId with
    | some taskNum, some projectNum => decide (|taskNum - projectNum| ≤ tolerance)
    | _, _ => matchExactRule taskId projectId
  | .timeframe =>
    match projectCreated, projectLastUsed, taskCreated with
    | some pc, some plu, some tc => decide (pc ≤ tc ∧ tc ≤ plu)
    | _, _, _ => false

/-- The constructor default `tolerance` of `ProjectMatcher`. -/
def defaultTolerance : Int := 20

/-! ### Slug-dependency resolution (`Aggregator._resolve_slug_dependencies`) -/

/-- The slug-to-id mapping built from every task with a truthy name and id
(dict build: later tasks overwrite earlier ones for an equal slug). -/
def slugToId (tasks : List RawTask) : List (String × String) :=
  tasks.foldl
    (fun m t => if !t.name.isEmpty && !t.id.isEmpty then dictInsert m (pySlug t.name) t.id else m)
    []

/-- Resolution of one dependency entry: purely numeric entries are kept,
slug entries are replaced through the slug map when found and kept as-is
(with a warning in the source) when not. -/
def resolveDepEntry (slugMap : List (String × String)) (dep : String) : String :=
  if pyIsDigit dep then dep
  else
    match dictLookup slugMap dep with
    | some resolvedId => resolvedId
    | none => dep

/-- `Aggregator._resolve_slug_dependencies`: tasks with an empty dependency
list are skipped (`continue`), all others get every entry resolved. -/
def resolveSlugDependencies (tasks : List RawTask) : List RawTask :=
  let slugMap := slugToId tasks
  tasks.map (fun t =>
    if t.dependencies.isEmpty then t
    else { t with dependencies := t.dependencies.map (resolveDepEntry slugMap) })

/-! ### Parent-dependency inheritance
(`Aggregator._inherit_parent_dependencies_to_first_subtask`)

The source builds `parent_tasks` (id → task, parentless tasks only, later
duplicates overwriting earlier ones), groups subtasks by parent id, and for
each parent with dependencies mutates the first dependency-free subtask of
its group.  Parents are never children, so the per-group mutations are
disjoint and the whole pass is the per-position function below: a task is
rewritten exactly when it is the first dependency-free subtask of a parent
that exists, is parentless and has dependencies. -/

/-- The `parent_tasks` dict: parentless tasks keyed by id. -/
def parentTasksMap (tasks : List RawTask) : List (String × RawTask) :=
  tasks.foldl (fun m t => if !(isChild t) then dictInsert m t.id t else m) []

/-- Is this task a dependency-free subtask of parent `pid`? -/
def depFreeChildOf (pid : String) (t : RawTask) : Bool :=
  isChild t && parentKey t == pid && t.dependencies.isEmpty

/-- Scan for the first dependency-free subtask of parent `pid`, counting
positions from `n`. -/
def firstDepFreeIndexFrom (pid : String) (n : Nat) : List RawTask → Option Nat
  | [] => none
  | t :: rest => if depFreeChildOf pid t then some n else firstDepFreeIndexFrom pid (n + 1) rest

/-- Position of the first dependency-free subtask of parent `pid`
(the `first_subtasks[0]` choice). -/
def firstDepFreeIndex (tasks : List RawTask) (pid : String) : Option Nat :=
  firstDepFreeIndexFrom pid 0 tasks

/-- `Aggregator._inherit_parent_dependencies_to_first_subtask`. -/
def inheritParentDependenciesToFirstSubtask (tasks : List RawTask) : List RawTask :=
  mapWithIdx
    (fun i t =>
      if isChild t then
        match dictLookup (parentTasksMap tasks) (parentKey t) with
        | some parent =>
          if !parent.dependencies.isEmpty && firstDepFreeIndex tasks (parentKey t) == some i then
            { t with dependencies := dedupAppend t.dependencies parent.dependencies }
          else t
        | none => t
      else t)
    tasks

/-! ### View filtering (`Aggregator._filter_tasks_by_view`) -/

inductive ViewMode where
  | subtasks
  | parents
  | all
deriving DecidableEq

/-- `Aggregator._filter_tasks_by_view`. -/
def filterTasksByView (tasks : List RawTask) : ViewMode → List RawTask
  | .subtasks =>
    let parentIdsWithSubtasks :=
      (tasks.filter (fun t => isChild t)).map parentKey
    tasks.filter (fun t => isChild t || !(parentIdsWithSubtasks.contains t.id))
  | .parents =>
    tasks.filter (fun t => !(t.isSubtask.getD (isChild t)))
  | .all => tasks

/-! ### Agent inference (`Aggregator._infer_agents`) -/

/-- `get_agent_name`: system/marcus (case-insensitively) display as
"Marcus". -/
def getAgentName (agentId : String) : String :=
  if pyLower agentId = "system" || pyLower agentId = "marcus" then "Marcus" else agentId

/-- Role assigned to an inferred agent id. -/
def agentRoleOf (agentId : String) : String :=
  if pyLower agentId = "system" || pyLower agentId = "marcus" then "system" else "agent"

/-- The inferred-agent record for one id. -/
structure AgentInfo where
  id : String
  name : String
  role : String
  skills : List String
deriving DecidableEq

/-- Add one candidate agent id if truthy and not already present
(the `if agent_id and agent_id not in agents` guard). -/
def addAgentId (m : List (String × AgentInfo)) (agentId? : Option String) : List (String × AgentInfo) :=
  match agentId? with
  | none => m
  | some aid =>
    if aid.isEmpty then m
    else if dictLookup m aid = none then
      dictInsert m aid ⟨aid, getAgentName aid, agentRoleOf aid, []⟩
    else m

/-- `Aggregator._infer_agents`: always seeds the system agent, then adds
agents found on tasks (first truthy of the three legacy id fields) and on
messages (from/to/agent id fields, in that order). -/
def inferAgents (tasks : List RawTask) (messages : List RawMessage) : List (String × AgentInfo) :=
  let init : List (String × AgentInfo) := [("system", ⟨"system", "Marcus", "system", []⟩)]
  let afterTasks := tasks.foldl
    (fun m t => addAgentId m (firstTruthy [t.assignedAgentId, t.agentId, t.assignedTo]))
    init
  messages.foldl
    (fun m msg => addAgentId (addAgentId (addAgentId m msg.fromAgentId) msg.toAgentId) msg.agentId)
    afterTasks

/-- `Aggregator._build_agents`: one denormalized `Agent` per entry of the
inferred-agents dict, with per-agent task and message counters. -/
def buildAgents (agentsById : List (String × AgentInfo)) (tasks : List Task)
    (messages : List RawMessage) : List Agent :=
  agentsById.map (fun entry =>
    let aid := entry.1
    let info := entry.2
    let agentTasks := tasks.filter (fun t => t.assignedAgentId == some aid)
    let currentTasks := agentTasks.filter (fun t => t.status == "in_progress" || t.status == "todo")
    let completedTasks := agentTasks.filter (fun t => t.status == "done")
    let totalHours := (completedTasks.map Task.actualHours).sum
    let avgHours : ℚ :=
      if completedTasks.length ≠ 0 then (totalHours : ℚ) / (completedTasks.length : ℚ) else 0
    { id := aid
      name := info.name
      role := info.role
      skills := info.skills
      currentTaskIds := currentTasks.map Task.id
      currentTaskNames := currentTasks.map Task.name
      completedTaskIds := completedTasks.map Task.id
      completedTasksCount := completedTasks.length
      totalHoursWorked := totalHours
      averageTaskDurationHours := avgHours
      performanceScore := 0
      capacityUtilization := 0
      messagesSent := (messages.filter (fun m => m.fromAgentId == some aid)).length
      messagesReceived := (messages.filter (fun m => m.toAgentId == some aid)).length
      blockersReported :=
        (messages.filter (fun m => m.fromAgentId == some aid && m.type == some "blocker")).length })

/-! ### Synthetic start times (`Aggregator._calculate_synthetic_start_times`)

The pass mutates only `started_at`, while `get_task_end_time` reads only
`completed_at` / `updated_at` / `created_at`, so the in-place loop is the
pure per-task map below, with dependency lookups against the input list. -/

/-- The `tasks_by_id` dict (later duplicate ids overwrite earlier ones). -/
def tasksById (tasks : List RawTask) : List (String × RawTask) :=
  tasks.foldl (fun m t => dictInsert m t.id t) []

/-- `get_task_end_time`: completed-at, else updated-at, else created-at. -/
def getTaskEndTime (t : RawTask) : Option Int :=
  match t.completedAt with
  | some v => some v
  | none =>
    match t.updatedAt with
    | some v => some v
    | none => t.createdAt

/-- End time of the task a dependency id resolves to, when both the lookup
and the end time exist. -/
def depEnd? (tasks : List RawTask) (dep : String) : Option Int :=
  match dictLookup (tasksById tasks) dep with
  | none => none
  | some depTask => getTaskEndTime depTask

/-- The end times of all resolvable dependencies, in dependency order. -/
def depEnds (tasks : List RawTask) (deps : List String) : List Int :=
  deps.filterMap (depEnd? tasks)

/-- One iteration of the latest-dependency-end accumulator loop. -/
def latestStep (tasks : List RawTask) (acc : Option Int) (dep : String) : Option Int :=
  match depEnd? tasks dep with
  | none => acc
  | some depEnd =>
    match acc with
    | none => some depEnd
    | some latest => if depEnd > latest then some depEnd else some latest

/-- Latest end time among the resolvable dependencies, exactly as the
source's accumulator loop computes it. -/
def latestDepEnd (tasks : List RawTask) (deps : List String) : Option Int :=
  deps.foldl (latestStep tasks) none

/-- The per-task body of the synthetic-start loop: skip tasks without
dependencies, skip tasks with no resolvable dependency end time, synthesize
a missing start, override a start earlier than the latest dependency
end. -/
def syntheticUpdate (tasks : List RawTask) (t : RawTask) : RawTask :=
  if t.dependencies.isEmpty then t
  else
    match latestDepEnd tasks t.dependencies with
    | none => t
    | some latest =>
      match t.startedAt with
      | none => { t with startedAt := some latest }
      | some s => if s < latest then { t with startedAt := some latest } else t

/-- `Aggregator._calculate_synthetic_start_times`. -/
def calculateSyntheticStartTimes (tasks : List RawTask) : List RawTask :=
  tasks.map (syntheticUpdate tasks)

/-! ### Timeline power scale (`Aggregator._calculate_power_scale_position`) -/

/-- `Aggregator._calculate_power_scale_position`: 0 below the range, 1
above it, else the power-law curve `linear_pos ** exponent`. -/
noncomputable def calculatePowerScalePosition (linearPos exponent : ℝ) : ℝ :=
  if linearPos ≤ 0 then 0
  else if 1 ≤ linearPos then 1
  else linearPos ^ exponent

/-! ### Parallelization metrics (`Aggregator._calculate_parallelization_metrics`) -/

/-- The sweep events: `(created_at, +1)` and `(updated_at, -1)` per task
with a positive `created_at → updated_at` duration.  In the dataclass both
timestamps always exist (and a `datetime` is always truthy), so the
positive-duration test is the only filter. -/
def sweepEvents (tasks : List Task) : List (Int × Int) :=
  tasks.flatMap (fun t =>
    if t.updatedAt.time > t.createdAt.time then
      [(t.createdAt.time, 1), (t.updatedAt.time, -1)]
    else [])

/-- Lexicographic order on sweep events, matching Python tuple sorting. -/
def eventLE (a b : Int × Int) : Bool :=
  a.1 < b.1 || (a.1 == b.1 && a.2 ≤ b.2)

/-- Stable insertion of an event into a sorted event list. -/
def insertEvent (a : Int × Int) : List (Int × Int) → List (Int × Int)
  | [] => [a]
  | b :: rest => if eventLE b a then b :: insertEvent a rest else a :: b :: rest

/-- Stable ascending sort of the event list (`events.sort()`). -/
def sortEvents : List (Int × Int) → List (Int × Int)
  | [] => []
  | a :: rest => insertEvent a (sortEvents rest)

/-- State of the concurrency sweep. -/
structure SweepState where
  counts : List (Int × Int)
  current : Int
  lastTime : Int
  totalTaskTime : Int
deriving DecidableEq

/-- One step of the sweep loop over `(time, delta)`. -/
def sweepStep (st : SweepState) (ev : Int × Int) : SweepState :=
  let st1 :=
    if ev.1 > st.lastTime && st.current > 0 then
      { st with
        totalTaskTime := st.totalTaskTime + (ev.1 - st.lastTime) * st.current,
        counts := st.counts ++ [(ev.1 - st.lastTime, st.current)] }
    else st
  { st1 with current := st1.current + ev.2, lastTime := ev.1 }

/-- The full sweep over the sorted events (`last_time = events[0][0]`). -/
def runSweep (sorted : List (Int × Int)) : SweepState :=
  sorted.foldl sweepStep ⟨[], 0, (sorted.headD (0, 0)).1, 0⟩

/-- Sum of the individual positive task durations (the "ideal serial
time"). -/
def totalTaskDuration (tasks : List Task) : Int :=
  ((tasks.filter (fun t => t.updatedAt.time > t.createdAt.time)).map
    (fun t => t.updatedAt.time - t.createdAt.time)).sum

/-- Observed span between the first and last sorted event. -/
def observedSpan (tasks : List Task) : Int :=
  let sorted := sortEvents (sweepEvents tasks)
  (sorted.getLastD (0, 0)).1 - (sorted.headD (0, 0)).1

/-- The concurrent-count intervals the sweep records. -/
def sweepCounts (tasks : List Task) : List (Int × Int) :=
  (runSweep (sortEvents (sweepEvents tasks))).counts

/-- `Aggregator._calculate_parallelization_metrics`, returning
`(peak_parallel_tasks, average_parallel_tasks, parallelization_efficiency)`. -/
def calculateParallelizationMetrics (tasks : List Task) : Int × ℚ × ℚ :=
  if tasks.isEmpty then (0, 0, 0)
  else if (sweepEvents tasks).isEmpty then (0, 0, 0)
  else
    match sweepCounts tasks with
    | [] => (0, 0, 0)
    | c :: rest =>
      (rest.foldl (fun a x => max a x.2) c.2,
       if observedSpan tasks > 0 then
         ((runSweep (sortEvents (sweepEvents tasks))).totalTaskTime : ℚ) / (observedSpan tasks : ℚ)
       else 0,
       min
         (if observedSpan tasks > 0 ∧ totalTaskDuration tasks > 0 then
            (observedSpan tasks : ℚ) / (totalTaskDuration tasks : ℚ)
          else 0)
         1)

/-! ### Duplicate detection (`Aggregator._detect_duplicates`)

The source groups by key, sorts each group by timestamp, sweeps it into
clusters anchored at each cluster's first message, and mutates the flag
fields of cluster members in place.  The pure rendering tracks every
message's original position, computes a position-keyed flag assignment, and
rebuilds the returned list (the source returns the same `messages` list
whose member objects were mutated through the groups). -/

/-- The grouping key: content hash (modelled injectively), agent pair,
task id or empty string, and type. -/
def dupKey (m : Message) : String × String × String × String × String :=
  (m.message, m.fromAgentId, m.toAgentId, m.taskId.getD "", m.type)

/-- Group keys in first-occurrence order (CPython dict iteration order). -/
def dupGroupKeys (ms : List (Nat × Message)) : List (String × String × String × String × String) :=
  ms.foldl (fun ks m => if dupKey m.2 ∈ ks then ks else ks ++ [dupKey m.2]) []

/-- The group of one key, in original message order. -/
def dupGroupOf (ms : List (Nat × Message)) (k : String × String × String × String × String) :
    List (Nat × Message) :=
  ms.filter (fun m => dupKey m.2 == k)

/-- All groups, in key-first-occurrence order. -/
def dupGroups (ms : List (Nat × Message)) : List (List (Nat × Message)) :=
  (dupGroupKeys ms).map (dupGroupOf ms)

/-- Stable insertion by timestamp. -/
def insertByTimestamp (a : Nat × Message) : List (Nat × Message) → List (Nat × Message)
  | [] => [a]
  | b :: rest =>
    if b.2.timestamp.time ≤ a.2.timestamp.time then b :: insertByTimestamp a rest
    else a :: b :: rest

/-- Stable ascending sort by timestamp (`sorted(..., key=timestamp)`). -/
def sortByTimestamp : List (Nat × Message) → List (Nat × Message)
  | [] => []
  | a :: rest => insertByTimestamp a (sortByTimestamp rest)

/-- Fuelled forward sweep (each step consumes at least one message, so one
unit of fuel per message suffices; the out-of-fuel branch keeps the
remaining messages as one cluster, preserving the partition invariant, and
is unreachable from `sweepClusters`). -/
def sweepClustersGo (threshold : Int) : Nat → List (Nat × Message) → List (List (Nat × Message))
  | _, [] => []
  | 0, a :: rest => [a :: rest]
  | fuel + 1, a :: rest =>
    let taken := rest.takeWhile (fun b => decide (|b.2.timestamp.time - a.2.timestamp.time| ≤ threshold))
    (a :: taken) :: sweepClustersGo threshold fuel (rest.drop taken.length)

/-- Forward sweep over a sorted group: a cluster is its anchor plus every
following message within `threshold` seconds of the anchor. -/
def sweepClusters (threshold : Int) (l : List (Nat × Message)) : List (List (Nat × Message)) :=
  sweepClustersGo threshold l.length l

/-- Every duplicate cluster, in the order the source visits them: groups in
key order (groups of fewer than two messages are skipped), clusters in
sweep order. -/
def allClusters (threshold : Int) (msgs : List Message) : List (List (Nat × Message)) :=
  (dupGroups (withIdx msgs)).flatMap (fun g =>
    if g.length < 2 then [] else sweepClusters threshold (sortByTimestamp g))

/-- Flag triple `(is_duplicate, duplicate_group_id, duplicate_count)`. -/
abbrev DupFlags := Bool × String × Nat

/-- The flag entries of one marked cluster: every member shares the group
id and the cluster size, and every member except the first is a
duplicate. -/
def clusterEntries (c : List (Nat × Message)) (gid : String) : List (Nat × DupFlags) :=
  mapWithIdx (fun p im => (im.1, (decide (0 < p), gid, c.length))) c

/-- Marking pass over the clusters, threading the shared group counter:
only clusters with at least two members are marked (and numbered). -/
def markAll : List (List (Nat × Message)) → Nat → List (Nat × DupFlags)
  | [], _ => []
  | c :: rest, counter =>
    if c.length < 2 then markAll rest counter
    else clusterEntries c ("dup_group_" ++ toString (counter + 1)) ++ markAll rest (counter + 1)

/-- The complete position-keyed flag assignment. -/
def dupAssignment (threshold : Int) (msgs : List Message) : List (Nat × DupFlags) :=
  markAll (allClusters threshold msgs) 0

/-- Apply one flag triple to a message. -/
def applyDupFlags (m : Message) (f : DupFlags) : Message :=
  { m with isDuplicate := f.1, duplicateGroupId := some f.2.1, duplicateCount := f.2.2 }

/-- `Aggregator._detect_duplicates` with an explicit threshold. -/
def detectDuplicatesWith (threshold : Int) (msgs : List Message) : List Message :=
  mapWithIdx
    (fun i m =>
      match natLookup (dupAssignment threshold msgs) i with
      | some f => applyDupFlags m f
      | none => m)
    msgs

/-- `Aggregator._detect_duplicates` at its default two-second threshold. -/
def detectDuplicates (msgs : List Message) : List Message :=
  detectDuplicatesWith 2 msgs

/-! ### Graph building (`Aggregator._build_dependency_graph`) and the
snapshot slice around it -/

/-- `Aggregator._build_dependency_graph`: one entry per retained task,
keyed by task id, holding that task's dependency list verbatim. -/
def buildDependencyGraph (tasks : List Task) : List (String × List String) :=
  tasks.foldl (fun g t => dictInsert g t.id t.dependencyIds) []

/-- The same graph computed over the raw records: `_build_tasks` copies
`task_data["dependencies"]` into `Task.dependency_ids` unchanged, so the
graph over the built `Task` objects equals this graph over the filtered
raw records. -/
def rawDependencyGraph (tasks : List RawTask) : List (String × List String) :=
  tasks.foldl (fun g t => dictInsert g t.id t.dependencies) []

/-- The `create_snapshot` slice that determines `task_dependency_graph`
from the loaded raw tasks: parent-dependency inheritance (step 2), view
filtering (step 3), synthetic start times (step 5.5, which never touches
ids or dependency lists), then the graph over the retained tasks
(step 10). -/
def snapshotDependencyGraph (rawTasks : List RawTask) (mode : ViewMode) :
    List (String × List String) :=
  rawDependencyGraph
    (calculateSyntheticStartTimes
      (filterTasksByView (inheritParentDependenciesToFirstSubtask rawTasks) mode))

/-- The retained (visible) task list of the same slice. -/
def retainedTasks (rawTasks : List RawTask) (mode : ViewMode) : List RawTask :=
  calculateSyntheticStartTimes
    (filterTasksByView (inheritParentDependenciesToFirstSubtask rawTasks) mode)

/-! ### Concrete inputs used to instantiate the theorems -/

/-- A loaded task set in which retained task "1" depends on task "3",
which exists but is a parent with a child and is therefore excluded from
the `subtasks` view. -/
def dangleRaw : List RawTask :=
  [{ id := "1", parentTaskId := some "2", dependencies := ["3"] },
   { id := "2", name := "B" },
   { id := "3", name := "Design" },
   { id := "4", parentTaskId := some "3" }]

/-- Two overlapping-interval tasks for the parallelization metrics. -/
def overlapTasks : List Task :=
  [{ id := "1", createdAt := ⟨0, true⟩, updatedAt := ⟨10, true⟩ },
   { id := "2", createdAt := ⟨5, true⟩, updatedAt := ⟨15, true⟩ }]

/-- Scenario 3 input: task "1" completes at 100; task "2" depends on it and
has no recorded start. -/
def scenario3Tasks : List RawTask :=
  [{ id := "1", createdAt := some 50, completedAt := some 100 },
   { id := "2", createdAt := some 60, dependencies := ["1"] }]

/-- Scenario 5 input: parent "2" with dependency "9"; child "3" has no
dependencies, sibling "4" depends on "3". -/
def scenario5Tasks : List RawTask :=
  [{ id := "2", name := "P", dependencies := ["9"] },
   { id := "3", parentTaskId := some "2" },
   { id := "4", parentTaskId := some "2", dependencies := ["3"] }]

/-- Scenario 6 input: two messages identical in content, agents, task and
type, one second apart. -/
def scenario6M1 : Message :=
  { id := "m1", timestamp := ⟨1000, true⟩, message := "done", type := "status_update",
    fromAgentId := "a", fromAgentName := "a", toAgentId := "b", toAgentName := "b" }

/-- The second scenario-6 message, one second after the first. -/
def scenario6M2 : Message :=
  { scenario6M1 with id := "m2", timestamp := ⟨1001, true⟩ }

/-! ## Helper lemmas -/

theorem dictLookup_dictInsert {α : Type} (m : List (String × α)) (k k' : String) (v : α) :
    dictLookup (dictInsert m k v) k' = if k' = k then some v else dictLookup m k' := by
  induction m with
  | nil =>
    simp only [dictInsert, dictLookup]
    by_cases h : k = k'
    · rw [if_pos h, if_pos h.symm]
    · rw [if_neg h, if_neg (fun he => h he.symm)]
  | cons hd tl ih =>
    obtain ⟨k0, v0⟩ := hd
    simp only [dictInsert]
    by_cases h0 : k0 = k
    · rw [if_pos h0]
      simp only [dictLookup]
      by_cases h1 : k = k'
      · rw [if_pos h1, if_pos h1.symm]
      · rw [if_neg h1, if_neg (fun he => h1 he.symm),
          if_neg (fun he : k0 = k' => h1 (h0.symm.trans he))]
    · rw [if_neg h0]
      simp only [dictLookup]
      by_cases h1 : k0 = k'
      · have h2 : ¬ k' = k := fun he => h0 (h1.trans he)
        rw [if_pos h1, if_neg h2, if_pos h1]
      · rw [if_neg h1, ih]
        by_cases h2 : k' = k
        · rw [if_pos h2, if_pos h2]
        · rw [if_neg h2, if_neg h2, if_neg h1]

theorem mem_dictKeys_dictInsert {α : Type} (m : List (String × α)) (k a : String) (v : α) :
    a ∈ dictKeys (dictInsert m k v) ↔ a = k ∨ a ∈ dictKeys m := by
  induction m with
  | nil => simp [dictInsert, dictKeys]
  | cons hd tl ih =>
    obtain ⟨k0, v0⟩ := hd
    simp only [dictInsert]
    by_cases h0 : k0 = k
    · rw [if_pos h0]
      subst h0
      simp only [dictKeys, List.map_cons, List.mem_cons]
      tauto
    · rw [if_neg h0]
      simp only [dictKeys, List.map_cons, List.mem_cons] at ih ⊢
      rw [ih]
      tauto

theorem dictLookup_eq_none_of_not_mem {α : Type} (m : List (String × α)) (k : String)
    (h : k ∉ dictKeys m) : dictLookup m k = none := by
  induction m with
  | nil => rfl
  | cons hd tl ih =>
    obtain ⟨k0, v0⟩ := hd
    simp only [dictKeys, List.map_cons, List.mem_cons, not_or] at h
    simp only [dictLookup]
    rw [if_neg (fun he => h.1 he.symm)]
    exact ih (by simpa [dictKeys] using h.2)

theorem withIdxFrom_get? {α : Type} (l : List α) : ∀ (n i : Nat),
    (withIdxFrom n l).get? i = (l.get? i).map (fun a => (n + i, a)) := by
  induction l with
  | nil => intro n i; simp [withIdxFrom]
  | cons a as ih =>
    intro n i
    cases i with
    | zero => simp [withIdxFrom]
    | succ j =>
      simp only [withIdxFrom, List.get?_cons_succ, ih (n + 1) j]
      have : n + 1 + j = n + (j + 1) := by omega
      rw [this]

theorem withIdxFrom_length {α : Type} (l : List α) : ∀ (n : Nat),
    (withIdxFrom n l).length = l.length := by
  induction l with
  | nil => intro n; simp [withIdxFrom]
  | cons a as ih => intro n; simp [withIdxFrom, ih]

theorem mem_withIdxFrom {α : Type} (l : List α) : ∀ (n : Nat) (p : Nat × α),
    p ∈ withIdxFrom n l → n ≤ p.1 ∧ l.get? (p.1 - n) = some p.2 := by
  induction l with
  | nil => intro n p h; simp [withIdxFrom] at h
  | cons a as ih =>
    intro n p h
    simp only [withIdxFrom, List.mem_cons] at h
    rcases h with h | h
    · subst h; simp
    · obtain ⟨h1, h2⟩ := ih (n + 1) p h
      refine ⟨by omega, ?_⟩
      have : p.1 - n = (p.1 - (n + 1)) + 1 := by omega
      rw [this]
      simpa using h2

theorem mem_withIdx_get? {α : Type} {l : List α} {i : Nat} {a : α}
    (h : (i, a) ∈ withIdx l) : l.get? i = some a := by
  have := mem_withIdxFrom l 0 (i, a) h
  simpa using this.2

theorem withIdxFrom_fst_ge {α : Type} (l : List α) : ∀ (n : Nat) (p : Nat × α),
    p ∈ withIdxFrom n l → n ≤ p.1 := by
  intro n p h
  exact (mem_withIdxFrom l n p h).1

theorem withIdxFrom_fst_nodup {α : Type} (l : List α) : ∀ (n : Nat),
    ((withIdxFrom n l).map Prod.fst).Nodup := by
  induction l with
  | nil => intro n; simp [withIdxFrom]
  | cons a as ih =>
    intro n
    simp only [withIdxFrom, List.map_cons, List.nodup_cons]
    refine ⟨?_, ih (n + 1)⟩
    intro hmem
    obtain ⟨p, hp, hfst⟩ := List.mem_map.mp hmem
    have := withIdxFrom_fst_ge as (n + 1) p hp
    omega

theorem mapWithIdx_get? {α β : Type} (f : Nat → α → β) (l : List α) (i : Nat) :
    (mapWithIdx f l).get? i = (l.get? i).map (fun a => f i a) := by
  simp only [mapWithIdx, withIdx, List.get?_map, withIdxFrom_get?, Nat.zero_add]
  cases l.get? i <;> simp

theorem mapWithIdx_length {α β : Type} (f : Nat → α → β) (l : List α) :
    (mapWithIdx f l).length = l.length := by
  simp [mapWithIdx, withIdx, withIdxFrom_length]

theorem natLookup_of_mem {α : Type} (m : List (Nat × α)) : ∀ (i : Nat) (f : α),
    (m.map Prod.fst).Nodup → (i, f) ∈ m → natLookup m i = some f := by
  induction m with
  | nil => intro i f _ hmem; simp at hmem
  | cons hd tl ih =>
    intro i f hnd hmem
    obtain ⟨k0, v0⟩ := hd
    simp only [List.map_cons, List.nodup_cons] at hnd
    rcases List.mem_cons.mp hmem with h | h
    · injection h with h1 h2
      subst h1
      subst h2
      simp [natLookup]
    · have hne : ¬ k0 = i := by
        intro he
        subst he
        exact hnd.1 (List.mem_map.mpr ⟨(k0, f), h, rfl⟩)
      simp only [natLookup]
      rw [if_neg hne]
      exact ih i f hnd.2 h

/-! ## C6: power-scale boundary law -/

/-- C6 counterexample: the claim asserts that for every exponent `e` and
every `x` strictly between 0 and 1 the scaled position lies strictly in
`(0, 1)`; at `x = 1/2`, `e = 0` the code returns `(1/2) ** 0 = 1`, which is
not below 1. -/
theorem powerScale_interior_fails_at_zero_exponent :
    calculatePowerScalePosition (1/2) 0 = 1 ∧ ¬ calculatePowerScalePosition (1/2) 0 < 1 := by
  have h : calculatePowerScalePosition (1/2) 0 = 1 := by
    unfold calculatePowerScalePosition
    rw [if_neg (by norm_num), if_neg (by norm_num), Real.rpow_zero]
  exact ⟨h, by rw [h]; exact lt_irrefl 1⟩

/-- C6 (amended): the boundary law holds for every exponent — the scaled
position is 0 at and below 0 and 1 at and above 1 — and for every
*positive* exponent the scaled position of an interior point lies strictly
in the open interval `(0, 1)`. -/
theorem powerScale_boundary_law (e x : ℝ) :
    calculatePowerScalePosition 0 e = 0 ∧
    calculatePowerScalePosition 1 e = 1 ∧
    (x ≤ 0 → calculatePowerScalePosition x e = 0) ∧
    (1 ≤ x → calculatePowerScalePosition x e = 1) ∧
    (0 < x → x < 1 → 0 < e →
      0 < calculatePowerScalePosition x e ∧ calculatePowerScalePosition x e < 1) := by
  refine ⟨?_, ?_, ?_, ?_, ?_⟩
  · unfold calculatePowerScalePosition
    rw [if_pos le_rfl]
  · unfold calculatePowerScalePosition
    rw [if_neg (by norm_num), if_pos le_rfl]
  · intro hx
    unfold calculatePowerScalePosition
    rw [if_pos hx]
  · intro hx
    unfold calculatePowerScalePosition
    rw [if_neg (by linarith), if_pos hx]
  · intro h0 h1 he
    unfold calculatePowerScalePosition
    rw [if_neg (by linarith), if_neg (by linarith)]
    exact ⟨Real.rpow_pos_of_pos h0 e, Real.rpow_lt_one (le_of_lt h0) h1 he⟩

/-- C6 witness: at exponent 1 and interior point 1/2 the hypotheses hold
and the scaled position is strictly between 0 and 1. -/
theorem powerScale_boundary_law_witness :
    (0 < (1/2 : ℝ) ∧ (1/2 : ℝ) < 1 ∧ (0 : ℝ) < 1) ∧
    (0 < calculatePowerScalePosition (1/2) 1 ∧ calculatePowerScalePosition (1/2) 1 < 1) :=
  ⟨⟨one_half_pos, one_half_lt_one, one_pos⟩,
    (powerScale_boundary_law 1 (1/2)).2.2.2.2 one_half_pos one_half_lt_one one_pos⟩

/-! ## C7: fuzzy project matching -/

/-- C7: under the fuzzy strategy the matcher returns true exactly when both
numeric extractions succeed and the values differ by at most the tolerance,
or some extraction fails and the exact rule (equality or a
project-id-underscore prefix) applies; the matcher is a total function, so
no exception escapes for any input. -/
theorem fuzzy_match_spec (tol : Int) (taskId projectId : String) :
    matchTaskToProject tol taskId projectId .fuzzy none none none = true ↔
      ((∃ a b, pyInt? (headTokenBeforeUnderscore taskId) = some a ∧
          pyInt? projectId = some b ∧ |a - b| ≤ tol) ∨
       ((pyInt? (headTokenBeforeUnderscore taskId) = none ∨ pyInt? projectId = none) ∧
          matchExactRule taskId projectId = true)) := by
  unfold matchTaskToProject
  cases hA : pyInt? (headTokenBeforeUnderscore taskId) with
  | none =>
    cases hB : pyInt? projectId <;> simp
  | some a =>
    cases hB : pyInt? projectId with
    | none => simp
    | some b =>
      simp only [decide_eq_true_eq]
      constructor
      · intro h
        exact Or.inl ⟨a, b, rfl, rfl, h⟩
      · rintro (⟨a', b', ha', hb', h⟩ | ⟨h, _⟩)
        · injection ha' with ha'
          injection hb' with hb'
          rw [ha', hb']
          exact h
        · rcases h with h | h <;> exact absurd h (by simp)

/-! ## C8: slug-resolution idempotence -/

/-- C8: on a task list whose dependency entries are all purely numeric the
slug-resolution step is the identity — so a second application after a
first resolving pass is a no-op — and in general every dependency entry is
rewritten by `resolveDepEntry`: numeric entries kept, slugs replaced
through the name-slug map when found and kept as-is otherwise. -/
theorem slugResolution_numeric_noop (tasks : List RawTask) :
    ((∀ t ∈ tasks, ∀ d ∈ t.dependencies, pyIsDigit d = true) →
      resolveSlugDependencies tasks = tasks) ∧
    (∀ i t, tasks.get? i = some t →
      (resolveSlugDependencies tasks).get? i =
        some { t with dependencies := t.dependencies.map (resolveDepEntry (slugToId tasks)) }) := by
  constructor
  · intro hdig
    unfold resolveSlugDependencies
    conv_rhs => rw [← List.map_id tasks]
    refine List.map_congr_left ?_
    intro t ht
    by_cases hemp : t.dependencies.isEmpty
    · rw [if_pos hemp]; rfl
    · rw [if_neg hemp]
      have hmap : t.dependencies.map (resolveDepEntry (slugToId tasks)) = t.dependencies := by
        conv_rhs => rw [← List.map_id t.dependencies]
        refine List.map_congr_left ?_
        intro d hd
        simp [resolveDepEntry, hdig t ht d hd]
      rw [hmap]
      rfl
  · intro i t ht
    unfold resolveSlugDependencies
    simp only [List.get?_map, ht, Option.map_some']
    by_cases hemp : t.dependencies.isEmpty
    · have hnil : t.dependencies = [] := List.isEmpty_iff.mp hemp
      have hmap : t.dependencies.map (resolveDepEntry (slugToId tasks)) = t.dependencies := by
        rw [hnil]; rfl
      rw [if_pos hemp, hmap]
    · rw [if_neg hemp]

/-- C8 witness: a concrete task list with purely numeric dependencies on
which the resolution step is the identity. -/
theorem slugResolution_numeric_noop_witness :
    (∀ t ∈ [({ id := "1", name := "A", dependencies := ["2", "3"] } : RawTask),
            { id := "2", name := "B", dependencies := ["3"] }],
      ∀ d ∈ t.dependencies, pyIsDigit d = true) ∧
    resolveSlugDependencies
        [({ id := "1", name := "A", dependencies := ["2", "3"] } : RawTask),
         { id := "2", name := "B", dependencies := ["3"] }] =
      [({ id := "1", name := "A", dependencies := ["2", "3"] } : RawTask),
       { id := "2", name := "B", dependencies := ["3"] }] :=
  ⟨by decide,
    (slugResolution_numeric_noop _).1 (by decide)⟩

/-! ## C9: naive timestamps are a hard construction failure -/

/-- C9: constructing any finalized entity (Task, Message, Event, Snapshot)
whose timestamp fields include a timezone-naive value fails validation with
an error, for every combination of the other field values. -/
theorem naive_timestamp_validation_fails :
    (∀ t : Task, taskHasNaive t = true → ∃ e, validateTask t = Except.error e) ∧
    (∀ m : Message, m.timestamp.tzAware = false → ∃ e, validateMessage m = Except.error e) ∧
    (∀ ev : Event, ev.timestamp.tzAware = false → ∃ e, validateEvent ev = Except.error e) ∧
    (∀ s : Snapshot, snapshotHasNaive s = true → ∃ e, validateSnapshot s = Except.error e) := by
  refine ⟨?_, ?_, ?_, ?_⟩
  · intro t h
    by_cases h1 : t.createdAt.tzAware = false
    · exact ⟨_, by unfold validateTask; rw [if_pos h1]⟩
    · by_cases h2 : t.updatedAt.tzAware = false
      · exact ⟨_, by unfold validateTask; rw [if_neg h1, if_pos h2]⟩
      · by_cases h3 : (t.startedAt.any (fun d => !d.tzAware)) = true
        · exact ⟨_, by unfold validateTask; rw [if_neg h1, if_neg h2, if_pos h3]⟩
        · by_cases h4 : (t.completedAt.any (fun d => !d.tzAware)) = true
          · exact ⟨_, by unfold validateTask; rw [if_neg h1, if_neg h2, if_neg h3, if_pos h4]⟩
          · exfalso
            have h1' : t.createdAt.tzAware = true := by
              revert h1; cases t.createdAt.tzAware <;> simp
            have h2' : t.updatedAt.tzAware = true := by
              revert h2; cases t.updatedAt.tzAware <;> simp
            have h3' : (t.startedAt.any (fun d => !d.tzAware)) = false := by
              revert h3; cases t.startedAt.any (fun d => !d.tzAware) <;> simp
            have h4' : (t.completedAt.any (fun d => !d.tzAware)) = false := by
              revert h4; cases t.completedAt.any (fun d => !d.tzAware) <;> simp
            simp [taskHasNaive, h1', h2', h3', h4'] at h
  · intro m h
    exact ⟨_, by unfold validateMessage; rw [if_pos h]⟩
  · intro ev h
    exact ⟨_, by unfold validateEvent; rw [if_pos h]⟩
  · intro s h
    by_cases h1 : s.timestamp.tzAware = false
    · exact ⟨_, by unfold validateSnapshot; rw [if_pos h1]⟩
    · by_cases h2 : (s.startTime.any (fun d => !d.tzAware)) = true
      · exact ⟨_, by unfold validateSnapshot; rw [if_neg h1, if_pos h2]⟩
      · by_cases h3 : (s.endTime.any (fun d => !d.tzAware)) = true
        · exact ⟨_, by unfold validateSnapshot; rw [if_neg h1, if_neg h2, if_pos h3]⟩
        · exfalso
          have h1' : s.timestamp.tzAware = true := by
            revert h1; cases s.timestamp.tzAware <;> simp
          have h2' : (s.startTime.any (fun d => !d.tzAware)) = false := by
            revert h2; cases s.startTime.any (fun d => !d.tzAware) <;> simp
          have h3' : (s.endTime.any (fun d => !d.tzAware)) = false := by
            revert h3; cases s.endTime.any (fun d => !d.tzAware) <;> simp
          simp [snapshotHasNaive, h1', h2', h3'] at h

/-- C9 witness: one concrete naive-timestamped value of each entity kind is
rejected. -/
theorem naive_timestamp_validation_fails_witness :
    (taskHasNaive { id := "t1", createdAt := ⟨0, false⟩, updatedAt := ⟨0, true⟩ } = true ∧
      ∃ e, validateTask { id := "t1", createdAt := ⟨0, false⟩, updatedAt := ⟨0, true⟩ } =
        Except.error e) ∧
    (({ id := "m1", timestamp := ⟨0, false⟩, message := "", type := "status_update",
        fromAgentId := "a", fromAgentName := "a", toAgentId := "b",
        toAgentName := "b" } : Message).timestamp.tzAware = false ∧
      ∃ e, validateMessage
        { id := "m1", timestamp := ⟨0, false⟩, message := "", type := "status_update",
          fromAgentId := "a", fromAgentName := "a", toAgentId := "b", toAgentName := "b" } =
        Except.error e) ∧
    (({ id := "e1", timestamp := ⟨0, false⟩, eventType := "x" } : Event).timestamp.tzAware
        = false ∧
      ∃ e, validateEvent { id := "e1", timestamp := ⟨0, false⟩, eventType := "x" } =
        Except.error e) ∧
    (snapshotHasNaive { snapshotId := "s1", snapshotVersion := 1, timestamp := ⟨0, false⟩ }
        = true ∧
      ∃ e, validateSnapshot { snapshotId := "s1", snapshotVersion := 1, timestamp := ⟨0, false⟩ } =
        Except.error e) :=
  ⟨⟨by decide, naive_timestamp_validation_fails.1 _ (by decide)⟩,
   ⟨by decide, naive_timestamp_validation_fails.2.1 _ (by decide)⟩,
   ⟨by decide, naive_timestamp_validation_fails.2.2.1 _ (by decide)⟩,
   ⟨by decide, naive_timestamp_validation_fails.2.2.2 _ (by decide)⟩⟩

/-! ## C10: the system agent is always inferred -/

theorem addAgentId_preserves_system {m : List (String × AgentInfo)} {v : AgentInfo}
    (o : Option String) (h : dictLookup m "system" = some v) :
    dictLookup (addAgentId m o) "system" = some v := by
  cases o with
  | none => exact h
  | some aid =>
    simp only [addAgentId]
    by_cases he : aid.isEmpty
    · rw [if_pos he]; exact h
    · rw [if_neg he]
      by_cases hn : dictLookup m aid = none
      · rw [if_pos hn]
        have hne : ¬ "system" = aid := by
          intro heq
          rw [← heq, h] at hn
          exact Option.noConfusion hn
        rw [dictLookup_dictInsert, if_neg hne]
        exact h
      · rw [if_neg hn]
        exact h

theorem foldl_addAgent_preserves_system {β : Type} (g : β → Option String) :
    ∀ (l : List β) (m : List (String × AgentInfo)) (v : AgentInfo),
      dictLookup m "system" = some v →
      dictLookup (l.foldl (fun m x => addAgentId m (g x)) m) "system" = some v := by
  intro l
  induction l with
  | nil => intro m v h; exact h
  | cons x xs ih =>
    intro m v h
    exact ih _ v (addAgentId_preserves_system (g x) h)

theorem foldl_addAgent3_preserves_system :
    ∀ (l : List RawMessage) (m : List (String × AgentInfo)) (v : AgentInfo),
      dictLookup m "system" = some v →
      dictLookup
        (l.foldl (fun m msg =>
          addAgentId (addAgentId (addAgentId m msg.fromAgentId) msg.toAgentId) msg.agentId) m)
        "system" = some v := by
  intro l
  induction l with
  | nil => intro m v h; exact h
  | cons x xs ih =>
    intro m v h
    exact ih _ v
      (addAgentId_preserves_system _
        (addAgentId_preserves_system _ (addAgentId_preserves_system _ h)))

/-- C10: for every input — the empty inputs included — the inferred-agents
dictionary maps the id "system" to the agent with display name "Marcus",
role "system" and empty skills, hence it is non-empty and the built agents
collection of the snapshot is non-empty too. -/
theorem inferAgents_always_contains_system (tasks : List RawTask) (messages : List RawMessage) :
    dictLookup (inferAgents tasks messages) "system" =
      some ⟨"system", "Marcus", "system", []⟩ ∧
    inferAgents tasks messages ≠ [] ∧
    (∀ (builtTasks : List Task) (rawMsgs : List RawMessage),
      buildAgents (inferAgents tasks messages) builtTasks rawMsgs ≠ []) := by
  have hsys : dictLookup (inferAgents tasks messages) "system" =
      some ⟨"system", "Marcus", "system", []⟩ := by
    unfold inferAgents
    refine foldl_addAgent3_preserves_system messages _ _ ?_
    refine foldl_addAgent_preserves_system _ tasks _ _ ?_
    simp [dictLookup]
  refine ⟨hsys, ?_, ?_⟩
  · intro hnil
    rw [hnil] at hsys
    simp [dictLookup] at hsys
  · intro builtTasks rawMsgs hnil
    unfold buildAgents at hnil
    rw [List.map_eq_nil] at hnil
    rw [hnil] at hsys
    simp [dictLookup] at hsys

/-! ## C4: parallelization efficiency lies in the unit interval -/

/-- C4: for every input task list — overlapping intervals included — the
parallelization efficiency is in the closed interval from 0 to 1: it is 0
whenever the observed span or the summed task durations are non-positive
(the degenerate early returns included), and otherwise it is the observed
span divided by the summed durations, clamped to at most 1. -/
theorem parallelizationEfficiency_in_unit_interval (tasks : List Task) :
    0 ≤ (calculateParallelizationMetrics tasks).2.2 ∧
    (calculateParallelizationMetrics tasks).2.2 ≤ 1 ∧
    (totalTaskDuration tasks ≤ 0 ∨ observedSpan tasks ≤ 0 →
      (calculateParallelizationMetrics tasks).2.2 = 0) ∧
    (0 < observedSpan tasks → 0 < totalTaskDuration tasks →
      tasks ≠ [] → sweepEvents tasks ≠ [] → sweepCounts tasks ≠ [] →
      (calculateParallelizationMetrics tasks).2.2 =
        min ((observedSpan tasks : ℚ) / (totalTaskDuration tasks : ℚ)) 1) := by
  by_cases h1 : tasks.isEmpty
  · have hr : (calculateParallelizationMetrics tasks).2.2 = 0 := by
      unfold calculateParallelizationMetrics
      rw [if_pos h1]
    rw [hr]
    exact ⟨le_refl 0, by norm_num, fun _ => rfl,
      fun _ _ hne _ _ => absurd (List.isEmpty_iff.mp h1) hne⟩
  · by_cases h2 : (sweepEvents tasks).isEmpty
    · have hr : (calculateParallelizationMetrics tasks).2.2 = 0 := by
        unfold calculateParallelizationMetrics
        rw [if_neg h1, if_pos h2]
      rw [hr]
      exact ⟨le_refl 0, by norm_num, fun _ => rfl,
        fun _ _ _ hne _ => absurd (List.isEmpty_iff.mp h2) hne⟩
    · cases hc : sweepCounts tasks with
      | nil =>
        have hr : (calculateParallelizationMetrics tasks).2.2 = 0 := by
          unfold calculateParallelizationMetrics
          rw [if_neg h1, if_neg h2, hc]
        rw [hr]
        exact ⟨le_refl 0, by norm_num, fun _ => rfl, fun _ _ _ _ hne => absurd rfl hne⟩
      | cons c rest =>
        have hr : (calculateParallelizationMetrics tasks).2.2 =
            min
              (if observedSpan tasks > 0 ∧ totalTaskDuration tasks > 0 then
                (observedSpan tasks : ℚ) / (totalTaskDuration tasks : ℚ)
               else 0)
              1 := by
          unfold calculateParallelizationMetrics
          rw [if_neg h1, if_neg h2, hc]
        rw [hr]
        refine ⟨?_, min_le_right _ _, ?_, ?_⟩
        · refine le_min ?_ (by norm_num)
          by_cases hg : observedSpan tasks > 0 ∧ totalTaskDuration tasks > 0
          · rw [if_pos hg]
            have ha : (0 : ℚ) ≤ (observedSpan tasks : ℚ) := by exact_mod_cast hg.1.le
            have hb : (0 : ℚ) ≤ (totalTaskDuration tasks : ℚ) := by exact_mod_cast hg.2.le
            exact div_nonneg ha hb
          · rw [if_neg hg]
        · intro hor
          have hng : ¬ (observedSpan tasks > 0 ∧ totalTaskDuration tasks > 0) := by
            rintro ⟨ha, hb⟩
            rcases hor with h | h
            · exact absurd hb (not_lt.mpr h)
            · exact absurd ha (not_lt.mpr h)
          rw [if_neg hng]
          exact min_eq_left (by norm_num)
        · intro hspan httd _ _ _
          rw [if_pos ⟨hspan, httd⟩]

/-- C4 witness: two overlapping tasks with positive span and positive
summed duration reach the clamped-ratio branch. -/
theorem parallelizationEfficiency_witness :
    (0 < observedSpan overlapTasks ∧ 0 < totalTaskDuration overlapTasks ∧
      overlapTasks ≠ [] ∧ sweepEvents overlapTasks ≠ [] ∧ sweepCounts overlapTasks ≠ []) ∧
    (calculateParallelizationMetrics overlapTasks).2.2 =
      min ((observedSpan overlapTasks : ℚ) / (totalTaskDuration overlapTasks : ℚ)) 1 :=
  ⟨⟨by decide, by decide, by decide, by decide, by decide⟩,
    (parallelizationEfficiency_in_unit_interval overlapTasks).2.2.2
      (by decide) (by decide) (by decide) (by decide) (by decide)⟩

/-! ## C1: dangling dependency ids in the dependency graph -/

theorem foldl_graph_mem_keys (ts : List RawTask) :
    ∀ (g : List (String × List String)) (k : String),
      k ∈ dictKeys (ts.foldl (fun g t => dictInsert g t.id t.dependencies) g) ↔
        k ∈ dictKeys g ∨ ∃ t ∈ ts, t.id = k := by
  induction ts with
  | nil => intro g k; simp
  | cons hd tl ih =>
    intro g k
    simp only [List.foldl_cons]
    rw [ih, mem_dictKeys_dictInsert]
    constructor
    · rintro ((h | h) | ⟨t, ht, rfl⟩)
      · exact Or.inr ⟨hd, List.mem_cons_self hd tl, h.symm⟩
      · exact Or.inl h
      · exact Or.inr ⟨t, List.mem_cons_of_mem hd ht, rfl⟩
    · rintro (h | ⟨t, ht, rfl⟩)
      · exact Or.inl (Or.inr h)
      · rcases List.mem_cons.mp ht with rfl | ht'
        · exact Or.inl (Or.inl rfl)
        · exact Or.inr ⟨t, ht', rfl⟩

theorem foldl_graph_lookup_of_no_id (ts : List RawTask) :
    ∀ (g : List (String × List String)) (k : String),
      (∀ t ∈ ts, t.id ≠ k) →
      dictLookup (ts.foldl (fun g t => dictInsert g t.id t.dependencies) g) k = dictLookup g k := by
  induction ts with
  | nil => intro g k _; rfl
  | cons hd tl ih =>
    intro g k h
    simp only [List.foldl_cons]
    rw [ih _ k (fun t ht => h t (List.mem_cons_of_mem hd ht)),
      dictLookup_dictInsert, if_neg (fun he => h hd (List.mem_cons_self hd tl) he.symm)]

theorem foldl_graph_lookup_found (ts : List RawTask) :
    ∀ (g : List (String × List String)) (t : RawTask),
      (ts.map RawTask.id).Nodup → t ∈ ts →
      dictLookup (ts.foldl (fun g t => dictInsert g t.id t.dependencies) g) t.id =
        some t.dependencies := by
  induction ts with
  | nil => intro g t _ hmem; simp at hmem
  | cons hd tl ih =>
    intro g t hnd hmem
    simp only [List.map_cons, List.nodup_cons] at hnd
    simp only [List.foldl_cons]
    rcases List.mem_cons.mp hmem with rfl | hmem'
    · rw [foldl_graph_lookup_of_no_id tl _ t.id
        (fun u hu he => hnd.1 (he ▸ List.mem_map.mpr ⟨u, hu, rfl⟩)),
        dictLookup_dictInsert, if_pos rfl]
    · exact ih _ t hnd.2 hmem'

/-- C1 counterexample: in `dangleRaw`, retained task "1" carries the
resolvable dependency id "3", the task with id "3" exists in the loaded
set, and it is filtered out of the `subtasks` view — yet "3" is *not* a key
of the snapshot's dependency graph, contradicting the claim that it
appears as a key. -/
theorem dependencyGraph_dangling_dependency_not_key :
    (∃ t ∈ retainedTasks dangleRaw .subtasks, t.id = "1" ∧ "3" ∈ t.dependencies) ∧
    (∃ t ∈ dangleRaw, t.id = "3") ∧
    "3" ∉ (retainedTasks dangleRaw .subtasks).map RawTask.id ∧
    "3" ∉ dictKeys (snapshotDependencyGraph dangleRaw .subtasks) := by
  decide

/-- C1 (amended): the dependency graph has exactly one key per retained
task — a dependency id whose task is filtered out is *not* a key — and
each retained task's dependency list is stored verbatim as that key's
value, so a dangling dependency id is preserved among the graph's values
(dangling edges are not pruned). -/
theorem dependencyGraph_keys_and_values (raw : List RawTask) (mode : ViewMode) :
    (∀ k, k ∈ dictKeys (snapshotDependencyGraph raw mode) ↔
      ∃ t ∈ retainedTasks raw mode, t.id = k) ∧
    (((retainedTasks raw mode).map RawTask.id).Nodup →
      ∀ t ∈ retainedTasks raw mode,
        dictLookup (snapshotDependencyGraph raw mode) t.id = some t.dependencies) := by
  have heq : snapshotDependencyGraph raw mode =
      rawDependencyGraph (retainedTasks raw mode) := rfl
  constructor
  · intro k
    rw [heq]
    unfold rawDependencyGraph
    rw [foldl_graph_mem_keys]
    simp [dictKeys]
  · intro hnd t ht
    rw [heq]
    unfold rawDependencyGraph
    exact foldl_graph_lookup_found _ _ t hnd ht

/-- C1 amended-claim witness: on `dangleRaw` the retained ids are unique
and the graph maps retained task "1" to its verbatim dependency list
["3"], whose entry dangles. -/
theorem dependencyGraph_keys_and_values_witness :
    (((retainedTasks dangleRaw .subtasks).map RawTask.id).Nodup ∧
      ({ id := "1", parentTaskId := some "2", dependencies := ["3"] } : RawTask)
        ∈ retainedTasks dangleRaw .subtasks) ∧
    dictLookup (snapshotDependencyGraph dangleRaw .subtasks) "1" = some ["3"] :=
  ⟨⟨by decide, by decide⟩,
    (dependencyGraph_keys_and_values dangleRaw .subtasks).2 (by decide)
      { id := "1", parentTaskId := some "2", dependencies := ["3"] } (by decide)⟩

/-! ## C2: synthetic start times from dependency end times -/

theorem latestDepEnd_go (tasks : List RawTask) (deps : List String) :
    ∀ (acc : Option Int),
      (deps.foldl (latestStep tasks) acc = none ↔ acc = none ∧ depEnds tasks deps = []) ∧
      (∀ L, deps.foldl (latestStep tasks) acc = some L →
        ((L ∈ depEnds tasks deps ∨ acc = some L) ∧
         (∀ e ∈ depEnds tasks deps, e ≤ L) ∧
         (∀ a, acc = some a → a ≤ L))) := by
  induction deps with
  | nil =>
    intro acc
    constructor
    · simp [depEnds]
    · intro L hL
      simp only [List.foldl_nil] at hL
      exact ⟨Or.inr hL, by simp [depEnds], fun a ha => by rw [ha] at hL; injection hL with h; omega⟩
  | cons d ds ih =>
    intro acc
    simp only [List.foldl_cons]
    cases hde : depEnd? tasks d with
    | none =>
      have hds : depEnds tasks (d :: ds) = depEnds tasks ds := by
        simp [depEnds, List.filterMap_cons, hde]
      have hstep : latestStep tasks acc d = acc := by simp [latestStep, hde]
      rw [hstep, hds]
      exact ih acc
    | some e =>
      have hds : depEnds tasks (d :: ds) = e :: depEnds tasks ds := by
        simp [depEnds, List.filterMap_cons, hde]
      cases acc with
      | none =>
        have hstep : latestStep tasks none d = some e := by simp [latestStep, hde]
        rw [hstep, hds]
        obtain ⟨ih1, ih2⟩ := ih (some e)
        constructor
        · rw [ih1]; simp
        · intro L hL
          obtain ⟨ha, hb, hc⟩ := ih2 L hL
          refine ⟨?_, ?_, ?_⟩
          · rcases ha with h | h
            · exact Or.inl (List.mem_cons_of_mem e h)
            · injection h with h
              exact Or.inl (h ▸ List.mem_cons_self e _)
          · intro x hx
            rcases List.mem_cons.mp hx with rfl | hx'
            · exact hc x rfl
            · exact hb x hx'
          · intro a ha'
            exact Option.noConfusion ha'
      | some a0 =>
        by_cases hgt : e > a0
        · have hstep : latestStep tasks (some a0) d = some e := by
            simp [latestStep, hde, hgt]
          rw [hstep, hds]
          obtain ⟨ih1, ih2⟩ := ih (some e)
          constructor
          · rw [ih1]; simp
          · intro L hL
            obtain ⟨ha, hb, hc⟩ := ih2 L hL
            have heL : e ≤ L := hc e rfl
            refine ⟨?_, ?_, ?_⟩
            · rcases ha with h | h
              · exact Or.inl (List.mem_cons_of_mem e h)
              · injection h with h
                exact Or.inl (h ▸ List.mem_cons_self e _)
            · intro x hx
              rcases List.mem_cons.mp hx with rfl | hx'
              · exact heL
              · exact hb x hx'
            · intro a ha'
              injection ha' with ha'
              omega
        · have hstep : latestStep tasks (some a0) d = some a0 := by
            simp [latestStep, hde, hgt]
          rw [hstep, hds]
          obtain ⟨ih1, ih2⟩ := ih (some a0)
          constructor
          · rw [ih1]; simp
          · intro L hL
            obtain ⟨ha, hb, hc⟩ := ih2 L hL
            have haL : a0 ≤ L := hc a0 rfl
            have heL : e ≤ L := le_trans (not_lt.mp hgt) haL
            refine ⟨?_, ?_, ?_⟩
            · rcases ha with h | h
              · exact Or.inl (List.mem_cons_of_mem e h)
              · exact Or.inr h
            · intro x hx
              rcases List.mem_cons.mp hx with rfl | hx'
              · exact heL
              · exact hb x hx'
            · exact hc

/-- C2: for every task at any position, the synthetic-start pass leaves it
unchanged when no resolvable dependency end time exists, and otherwise the
latest dependency end time `L` — which is the maximum over every resolvable
dependency's completed-at / updated-at / created-at end time — is written
into `started_at` when the task has no start, overrides a start strictly
earlier than `L`, and leaves a start at or after `L` unchanged. -/
theorem syntheticStartTimes_spec (tasks : List RawTask) (i : Nat) (t : RawTask)
    (ht : tasks.get? i = some t) :
    ∃ t', (calculateSyntheticStartTimes tasks).get? i = some t' ∧
      (latestDepEnd tasks t.dependencies = none → t' = t) ∧
      (∀ L, latestDepEnd tasks t.dependencies = some L →
        (L ∈ depEnds tasks t.dependencies ∧ ∀ e ∈ depEnds tasks t.dependencies, e ≤ L) ∧
        (t.startedAt = none → t' = { t with startedAt := some L }) ∧
        (∀ s, t.startedAt = some s → s < L → t' = { t with startedAt := some L }) ∧
        (∀ s, t.startedAt = some s → ¬ s < L → t' = t)) := by
  refine ⟨syntheticUpdate tasks t, ?_, ?_, ?_⟩
  · unfold calculateSyntheticStartTimes
    rw [List.get?_map, ht]
    rfl
  · intro hnone
    unfold syntheticUpdate
    by_cases hemp : t.dependencies.isEmpty
    · rw [if_pos hemp]
    · rw [if_neg hemp, hnone]
  · intro L hL
    have hemp : ¬ t.dependencies.isEmpty = true := by
      intro he
      rw [List.isEmpty_iff.mp he] at hL
      simp [latestDepEnd] at hL
    have hmax := ((latestDepEnd_go tasks t.dependencies none).2 L hL)
    have hmem : L ∈ depEnds tasks t.dependencies := by
      rcases hmax.1 with h | h
      · exact h
      · exact Option.noConfusion h
    refine ⟨⟨hmem, hmax.2.1⟩, ?_, ?_, ?_⟩
    · intro hs
      unfold syntheticUpdate
      rw [if_neg hemp, hL, hs]
    · intro s hs hlt
      unfold syntheticUpdate
      rw [if_neg hemp, hL, hs]
      show (if s < L then { t with startedAt := some L } else t) = { t with startedAt := some L }
      rw [if_pos hlt]
    · intro s hs hlt
      unfold syntheticUpdate
      rw [if_neg hemp, hL, hs]
      show (if s < L then { t with startedAt := some L } else t) = t
      rw [if_neg hlt]

/-- C2 witness (Scenario 3): task "2" depends only on task "1", which
completes at 100; task "2" has no recorded start, so its synthesized start
is exactly 100. -/
theorem syntheticStartTimes_witness :
    (scenario3Tasks.get? 1 =
      some { id := "2", createdAt := some 60, dependencies := ["1"] } ∧
     latestDepEnd scenario3Tasks ["1"] = some 100) ∧
    ∃ t', (calculateSyntheticStartTimes scenario3Tasks).get? 1 = some t' ∧
      t'.startedAt = some 100 := by
  refine ⟨⟨by decide, by decide⟩, ?_⟩
  obtain ⟨t', h1, _, h3⟩ :=
    syntheticStartTimes_spec scenario3Tasks 1
      { id := "2", createdAt := some 60, dependencies := ["1"] } (by decide)
  obtain ⟨_, hset, _, _⟩ := h3 100 (by decide)
  exact ⟨t', h1, by rw [hset rfl]⟩

/-! ## C3: parent-dependency inheritance to the first subtask -/

theorem firstDepFreeIndexFrom_spec (pid : String) (l : List RawTask) : ∀ (n : Nat),
    (∀ i, firstDepFreeIndexFrom pid n l = some i →
      ∃ k t, i = n + k ∧ l.get? k = some t ∧ depFreeChildOf pid t = true ∧
        ∀ j u, j < k → l.get? j = some u → depFreeChildOf pid u = false) ∧
    (∀ k t, l.get? k = some t → depFreeChildOf pid t = true →
      (∀ j u, j < k → l.get? j = some u → depFreeChildOf pid u = false) →
      firstDepFreeIndexFrom pid n l = some (n + k)) := by
  induction l with
  | nil =>
    intro n
    constructor
    · intro i h
      simp [firstDepFreeIndexFrom] at h
    · intro k t hkt
      simp at hkt
  | cons a as ih =>
    intro n
    constructor
    · intro i h
      by_cases hg : depFreeChildOf pid a = true
      · simp only [firstDepFreeIndexFrom, if_pos hg] at h
        injection h with h
        refine ⟨0, a, by omega, rfl, hg, ?_⟩
        intro j u hj
        omega
      · simp only [firstDepFreeIndexFrom, if_neg hg] at h
        obtain ⟨k, t, hik, hkt, hgt, hmin⟩ := (ih (n + 1)).1 i h
        refine ⟨k + 1, t, by omega, by simpa using hkt, hgt, ?_⟩
        intro j u hj hu
        cases j with
        | zero =>
          injection hu with hu
          subst hu
          exact Bool.eq_false_iff.mpr hg
        | succ j' =>
          exact hmin j' u (by omega) (by simpa using hu)
    · intro k t hkt hgt hmin
      cases k with
      | zero =>
        simp only [List.get?_cons_zero] at hkt
        injection hkt with hkt
        subst hkt
        simp [firstDepFreeIndexFrom, hgt]
      | succ k' =>
        have hga : depFreeChildOf pid a = false :=
          hmin 0 a (Nat.succ_pos k') rfl
        simp only [firstDepFreeIndexFrom, hga, Bool.false_eq_true, if_false]
        have := (ih (n + 1)).2 k' t (by simpa using hkt) hgt
          (fun j u hj hu => hmin (j + 1) u (by omega) (by simpa using hu))
        rw [this]
        congr 1
        omega

/-- C3: the inheritance pass never changes parentless tasks; for every
parent `pid` found in the parentless-task map with a non-empty dependency
list, exactly the first dependency-free child of `pid` — which is the
unique dependency-free child whenever only one exists — gets the parent's
dependencies appended (deduplicated) onto its (empty) dependency list,
every other child of `pid` is unchanged, and when `pid` has no
dependency-free child nothing is changed at all (a silent no-op). -/
theorem inheritParentDeps_spec (tasks : List RawTask) :
    (∀ i t, tasks.get? i = some t → isChild t = false →
      (inheritParentDependenciesToFirstSubtask tasks).get? i = some t) ∧
    (∀ pid parent, dictLookup (parentTasksMap tasks) pid = some parent →
      parent.dependencies ≠ [] →
      ∀ i t, tasks.get? i = some t → isChild t = true → parentKey t = pid →
        (firstDepFreeIndex tasks pid = some i →
          t.dependencies = [] ∧
          (inheritParentDependenciesToFirstSubtask tasks).get? i =
            some { t with dependencies := dedupAppend t.dependencies parent.dependencies }) ∧
        (firstDepFreeIndex tasks pid ≠ some i →
          (inheritParentDependenciesToFirstSubtask tasks).get? i = some t)) ∧
    (∀ pid i t, tasks.get? i = some t → depFreeChildOf pid t = true →
      (∀ j u, j ≠ i → tasks.get? j = some u → depFreeChildOf pid u = false) →
      firstDepFreeIndex tasks pid = some i) := by
  refine ⟨?_, ?_, ?_⟩
  · intro i t ht hchild
    unfold inheritParentDependenciesToFirstSubtask
    rw [mapWithIdx_get?, ht]
    simp [hchild]
  · intro pid parent hpar hdeps i t ht hchild hkey
    constructor
    · intro hfirst
      have hdf : t.dependencies = [] := by
        obtain ⟨k, u, hik, hku, hgu, _⟩ :=
          (firstDepFreeIndexFrom_spec pid tasks 0).1 i hfirst
        have : k = i := by omega
        subst this
        rw [ht] at hku
        injection hku with hku
        subst hku
        have := (Bool.and_eq_true _ _).mp hgu
        exact List.isEmpty_iff.mp this.2
      refine ⟨hdf, ?_⟩
      unfold inheritParentDependenciesToFirstSubtask
      rw [mapWithIdx_get?, ht]
      have hne : parent.dependencies.isEmpty = false := by
        cases hp : parent.dependencies with
        | nil => exact absurd hp hdeps
        | cons x xs => rfl
      simp only [Option.map_some', hchild, if_true, hkey, hpar, hne, hfirst]
      simp
    · intro hfirst
      unfold inheritParentDependenciesToFirstSubtask
      rw [mapWithIdx_get?, ht]
      have hbe : (firstDepFreeIndex tasks pid == some i) = false := by
        rw [beq_eq_false_iff_ne]
        exact hfirst
      simp only [Option.map_some', hchild, if_true, hkey, hpar, hbe, Bool.and_false,
        Bool.false_eq_true, if_false]
  · intro pid i t ht hgood hmin
    have := (firstDepFreeIndexFrom_spec pid tasks 0).2 i t ht hgood
      (fun j u hj hu => hmin j u (by omega) hu)
    simpa using this

/-- C3 witness (Scenario 5): parent "2" has dependency list ["9"]; its
dependency-free child "3" inherits ["9"] and the sibling "4" is
unchanged. -/
theorem inheritParentDeps_witness :
    (dictLookup (parentTasksMap scenario5Tasks) "2" =
        some { id := "2", name := "P", dependencies := ["9"] } ∧
      firstDepFreeIndex scenario5Tasks "2" = some 1) ∧
    (inheritParentDependenciesToFirstSubtask scenario5Tasks).get? 1 =
      some { id := "3", parentTaskId := some "2", dependencies := ["9"] } ∧
    (inheritParentDependenciesToFirstSubtask scenario5Tasks).get? 2 =
      some { id := "4", parentTaskId := some "2", dependencies := ["3"] } := by
  refine ⟨⟨by decide, by decide⟩, ?_, ?_⟩
  · have := ((inheritParentDeps_spec scenario5Tasks).2.1 "2"
      { id := "2", name := "P", dependencies := ["9"] } (by decide) (by decide)
      1 { id := "3", parentTaskId := some "2" } (by decide) (by decide) (by decide)).1
      (by decide)
    exact this.2
  · exact ((inheritParentDeps_spec scenario5Tasks).2.1 "2"
      { id := "2", name := "P", dependencies := ["9"] } (by decide) (by decide)
      2 { id := "4", parentTaskId := some "2", dependencies := ["3"] }
      (by decide) (by decide) (by decide)).2 (by decide)

/-! ## C5: duplicate-message clusters -/

theorem withIdxFrom_map_snd {α β : Type} (g : α → β) (l : List α) : ∀ (n : Nat),
    (withIdxFrom n l).map (fun p => g p.2) = l.map g := by
  induction l with
  | nil => intro n; rfl
  | cons a as ih => intro n; simp [withIdxFrom, ih]

theorem clusterEntries_fst (c : List (Nat × Message)) (gid : String) :
    (clusterEntries c gid).map Prod.fst = c.map Prod.fst := by
  unfold clusterEntries mapWithIdx withIdx
  rw [List.map_map]
  exact withIdxFrom_map_snd Prod.fst c 0

theorem clusterEntries_get? (c : List (Nat × Message)) (gid : String) (p : Nat) :
    (clusterEntries c gid).get? p =
      (c.get? p).map (fun im => (im.1, (decide (0 < p), gid, c.length))) := by
  unfold clusterEntries
  rw [mapWithIdx_get?]

theorem takeWhile_append_drop_self {α : Type} (p : α → Bool) (l : List α) :
    l.takeWhile p ++ l.drop (l.takeWhile p).length = l := by
  induction l with
  | nil => rfl
  | cons a as ih =>
    by_cases hp : p a
    · simp only [List.takeWhile_cons, hp, if_true, List.length_cons, List.cons_append,
        List.drop_succ_cons]
      rw [ih]
    · simp [List.takeWhile_cons, hp]

theorem sweepClustersGo_flat (thr : Int) : ∀ (fuel : Nat) (l : List (Nat × Message)),
    (sweepClustersGo thr fuel l).flatten = l := by
  intro fuel
  induction fuel with
  | zero =>
    intro l
    cases l with
    | nil => rfl
    | cons a rest => simp [sweepClustersGo]
  | succ n ih =>
    intro l
    cases l with
    | nil => rfl
    | cons a rest =>
      simp only [sweepClustersGo, List.flatten_cons, List.cons_append]
      rw [ih, takeWhile_append_drop_self]

theorem sweepClustersGo_cluster_sublist (thr : Int) : ∀ (fuel : Nat)
    (l c : List (Nat × Message)), c ∈ sweepClustersGo thr fuel l → c.Sublist l := by
  intro fuel
  induction fuel with
  | zero =>
    intro l c hc
    cases l with
    | nil => simp [sweepClustersGo] at hc
    | cons a rest =>
      simp only [sweepClustersGo, List.mem_singleton] at hc
      exact hc ▸ List.Sublist.refl _
  | succ n ih =>
    intro l c hc
    cases l with
    | nil => simp [sweepClustersGo] at hc
    | cons a rest =>
      simp only [sweepClustersGo, List.mem_cons] at hc
      rcases hc with rfl | hc
      · exact (List.takeWhile_sublist _).cons_cons a
      · exact ((ih _ c hc).trans (List.drop_sublist _ _)).trans
          ((List.Sublist.refl rest).cons a)

theorem mem_insertByTimestamp (a x : Nat × Message) (l : List (Nat × Message)) :
    x ∈ insertByTimestamp a l ↔ x = a ∨ x ∈ l := by
  induction l with
  | nil => simp [insertByTimestamp]
  | cons b rest ih =>
    by_cases hb : b.2.timestamp.time ≤ a.2.timestamp.time
    · simp only [insertByTimestamp, if_pos hb, List.mem_cons, ih]
      try tauto
    · simp only [insertByTimestamp, if_neg hb, List.mem_cons]
      try tauto

theorem insertByTimestamp_perm (a : Nat × Message) (l : List (Nat × Message)) :
    (insertByTimestamp a l).Perm (a :: l) := by
  induction l with
  | nil => exact List.Perm.refl _
  | cons b rest ih =>
    by_cases hb : b.2.timestamp.time ≤ a.2.timestamp.time
    · simp only [insertByTimestamp, if_pos hb]
      exact (ih.cons b).trans (List.Perm.swap a b rest)
    · simp only [insertByTimestamp, if_neg hb]
      exact List.Perm.refl _

theorem sortByTimestamp_perm (l : List (Nat × Message)) :
    (sortByTimestamp l).Perm l := by
  induction l with
  | nil => exact List.Perm.refl _
  | cons a rest ih =>
    exact (insertByTimestamp_perm a (sortByTimestamp rest)).trans (ih.cons a)

theorem insertByTimestamp_pairwise (a : Nat × Message) (l : List (Nat × Message))
    (h : l.Pairwise (fun x y => x.2.timestamp.time ≤ y.2.timestamp.time)) :
    (insertByTimestamp a l).Pairwise (fun x y => x.2.timestamp.time ≤ y.2.timestamp.time) := by
  induction l with
  | nil => simp [insertByTimestamp]
  | cons b rest ih =>
    rw [List.pairwise_cons] at h
    by_cases hb : b.2.timestamp.time ≤ a.2.timestamp.time
    · simp only [insertByTimestamp, if_pos hb]
      rw [List.pairwise_cons]
      refine ⟨?_, ih h.2⟩
      intro x hx
      rcases (mem_insertByTimestamp a x rest).mp hx with rfl | hx'
      · exact hb
      · exact h.1 x hx'
    · simp only [insertByTimestamp, if_neg hb]
      rw [List.pairwise_cons]
      refine ⟨?_, List.pairwise_cons.mpr h⟩
      intro x hx
      rcases List.mem_cons.mp hx with rfl | hx'
      · exact le_of_not_le hb
      · exact le_trans (le_of_not_le hb) (h.1 x hx')

theorem sortByTimestamp_pairwise (l : List (Nat × Message)) :
    (sortByTimestamp l).Pairwise (fun x y => x.2.timestamp.time ≤ y.2.timestamp.time) := by
  induction l with
  | nil => simp [sortByTimestamp]
  | cons a rest ih => exact insertByTimestamp_pairwise a (sortByTimestamp rest) ih

theorem mem_dupGroupOf (ms : List (Nat × Message))
    (k : String × String × String × String × String) (p : Nat × Message) :
    p ∈ dupGroupOf ms k ↔ p ∈ ms ∧ dupKey p.2 = k := by
  unfold dupGroupOf
  rw [List.mem_filter]
  simp

theorem nodup_fst_unique {l : List (Nat × Message)}
    (h : (l.map Prod.fst).Nodup) :
    ∀ p q, p ∈ l → q ∈ l → p.1 = q.1 → p = q := by
  induction l with
  | nil => intro p q hp; simp at hp
  | cons x xs ih =>
    intro p q hp hq hpq
    simp only [List.map_cons, List.nodup_cons] at h
    rcases List.mem_cons.mp hp with rfl | hp' <;>
      rcases List.mem_cons.mp hq with h2 | hq'
    · rw [h2]
    · exact absurd (List.mem_map.mpr ⟨q, hq', hpq.symm⟩) h.1
    · exact absurd (List.mem_map.mpr ⟨p, hp', (h2 ▸ hpq)⟩) h.1
    · exact ih h.2 p q hp' hq' hpq

theorem dupGroupKeys_go_nodup (l : List (Nat × Message)) :
    ∀ (acc : List (String × String × String × String × String)), acc.Nodup →
      (l.foldl (fun ks m => if dupKey m.2 ∈ ks then ks else ks ++ [dupKey m.2]) acc).Nodup := by
  induction l with
  | nil => intro acc h; exact h
  | cons x xs ih =>
    intro acc h
    simp only [List.foldl_cons]
    by_cases hx : dupKey x.2 ∈ acc
    · rw [if_pos hx]
      exact ih acc h
    · rw [if_neg hx]
      refine ih _ (List.nodup_append.mpr ⟨h, List.nodup_singleton (dupKey x.2), ?_⟩)
      intro a ha hax
      rw [List.mem_singleton] at hax
      exact hx (hax ▸ ha)

theorem dupGroupKeys_nodup (ms : List (Nat × Message)) : (dupGroupKeys ms).Nodup := by
  unfold dupGroupKeys
  exact dupGroupKeys_go_nodup ms [] List.nodup_nil

theorem markAll_fst_sublist : ∀ (cs : List (List (Nat × Message))) (n : Nat),
    ((markAll cs n).map Prod.fst).Sublist (cs.flatMap (fun c => c.map Prod.fst)) := by
  intro cs
  induction cs with
  | nil => intro n; simp [markAll]
  | cons c rest ih =>
    intro n
    simp only [markAll, List.flatMap_cons]
    by_cases hc : c.length < 2
    · rw [if_pos hc]
      exact (ih n).trans (List.sublist_append_right _ _)
    · rw [if_neg hc, List.map_append, clusterEntries_fst]
      exact (ih (n + 1)).append_left _

theorem markAll_mem_entries : ∀ (cs : List (List (Nat × Message))) (n : Nat)
    (c : List (Nat × Message)), c ∈ cs → ¬ c.length < 2 →
    ∃ gid, ∀ e ∈ clusterEntries c gid, e ∈ markAll cs n := by
  intro cs
  induction cs with
  | nil => intro n c hc; simp at hc
  | cons c0 rest ih =>
    intro n c hc hlen
    rcases List.mem_cons.mp hc with rfl | hc'
    · refine ⟨"dup_group_" ++ toString (n + 1), ?_⟩
      intro e he
      simp only [markAll, if_neg hlen]
      exact List.mem_append_left _ he
    · by_cases h0 : c0.length < 2
      · obtain ⟨gid, hg⟩ := ih n c hc' hlen
        exact ⟨gid, fun e he => by simp only [markAll, if_pos h0]; exact hg e he⟩
      · obtain ⟨gid, hg⟩ := ih (n + 1) c hc' hlen
        exact ⟨gid, fun e he => by
          simp only [markAll, if_neg h0]
          exact List.mem_append_right _ (hg e he)⟩

theorem count_flatMap_le {β γ : Type} [DecidableEq γ] (l : List β) (f h : β → List γ) (a : γ)
    (hle : ∀ b ∈ l, (f b).count a ≤ (h b).count a) :
    ((l.flatMap f).count a) ≤ (l.flatMap h).count a := by
  induction l with
  | nil => simp
  | cons x xs ih =>
    simp only [List.flatMap_cons, List.count_append]
    have h1 := hle x (List.mem_cons_self x xs)
    have h2 := ih (fun b hb => hle b (List.mem_cons_of_mem x hb))
    omega

theorem flatMap_map_fst {γ : Type} (cs : List (List (Nat × γ))) :
    cs.flatMap (fun c => c.map Prod.fst) = cs.flatten.map Prod.fst := by
  induction cs with
  | nil => rfl
  | cons c rest ih => simp [List.flatMap_cons, List.flatten_cons, ih]

theorem flatMap_flatMap_assoc {β γ δ : Type} (l : List β) (f : β → List γ) (g : γ → List δ) :
    (l.flatMap f).flatMap g = l.flatMap (fun b => (f b).flatMap g) := by
  induction l with
  | nil => rfl
  | cons x xs ih => simp [List.flatMap_cons, List.flatMap_append, ih]

theorem flatMap_map_comp {β β' γ : Type} (l : List β) (f : β → β') (g : β' → List γ) :
    (l.map f).flatMap g = l.flatMap (fun b => g (f b)) := by
  induction l with
  | nil => rfl
  | cons x xs ih => simp [List.flatMap_cons, ih]

theorem count_groupOf_le_one (ms : List (Nat × Message))
    (hnd : (ms.map Prod.fst).Nodup) (k : String × String × String × String × String)
    (a : Nat) : ((dupGroupOf ms k).map Prod.fst).count a ≤ 1 := by
  have hsub : ((dupGroupOf ms k).map Prod.fst).Sublist (ms.map Prod.fst) :=
    (List.filter_sublist ms).map Prod.fst
  exact le_trans (hsub.count_le a) (List.nodup_iff_count_le_one.mp hnd a)

theorem fst_mem_groupOf (ms : List (Nat × Message))
    (k : String × String × String × String × String) (a : Nat)
    (h : a ∈ (dupGroupOf ms k).map Prod.fst) :
    ∃ p, p ∈ ms ∧ p.1 = a ∧ dupKey p.2 = k := by
  obtain ⟨p, hp, hpa⟩ := List.mem_map.mp h
  obtain ⟨hm, hk⟩ := (mem_dupGroupOf ms k p).mp hp
  exact ⟨p, hm, hpa, hk⟩

theorem count_keys_flatMap_le_one (ms : List (Nat × Message))
    (hnd : (ms.map Prod.fst).Nodup) :
    ∀ (KS : List (String × String × String × String × String)), KS.Nodup →
      ∀ a, ((KS.flatMap (fun k => (dupGroupOf ms k).map Prod.fst)).count a) ≤ 1 := by
  intro KS
  induction KS with
  | nil => intro _ a; simp
  | cons k ks ih =>
    intro hks a
    simp only [List.flatMap_cons, List.count_append]
    rw [List.nodup_cons] at hks
    by_cases ha : a ∈ (dupGroupOf ms k).map Prod.fst
    · have hrest : ((ks.flatMap (fun k => (dupGroupOf ms k).map Prod.fst)).count a) = 0 := by
        rw [List.count_eq_zero]
        intro hmem
        obtain ⟨k', hk', hk'mem⟩ := List.mem_flatMap.mp hmem
        obtain ⟨p, hpm, hpa, hpk⟩ := fst_mem_groupOf ms k a ha
        obtain ⟨q, hqm, hqa, hqk⟩ := fst_mem_groupOf ms k' a hk'mem
        have hpq : p = q := nodup_fst_unique hnd p q hpm hqm (by rw [hpa, hqa])
        have hkk : k = k' := by rw [← hpk, hpq, hqk]
        exact hks.1 (hkk ▸ hk')
      have hhead := count_groupOf_le_one ms hnd k a
      omega
    · have hhead : ((dupGroupOf ms k).map Prod.fst).count a = 0 := List.count_eq_zero.mpr ha
      have := ih hks.2 a
      omega

theorem dupAssignment_fst_nodup (thr : Int) (msgs : List Message) :
    ((dupAssignment thr msgs).map Prod.fst).Nodup := by
  have hms : ((withIdx msgs).map Prod.fst).Nodup := withIdxFrom_fst_nodup msgs 0
  have hfull : ∀ a,
      (((dupGroups (withIdx msgs)).flatMap (fun g => g.map Prod.fst)).count a) ≤ 1 := by
    intro a
    unfold dupGroups
    rw [flatMap_map_comp]
    exact count_keys_flatMap_le_one (withIdx msgs) hms (dupGroupKeys (withIdx msgs))
      (dupGroupKeys_nodup _) a
  have hcl : ∀ a,
      (((allClusters thr msgs).flatMap (fun c => c.map Prod.fst)).count a) ≤ 1 := by
    intro a
    refine le_trans ?_ (hfull a)
    unfold allClusters
    rw [flatMap_flatMap_assoc]
    refine count_flatMap_le _ _ _ a ?_
    intro g hg
    by_cases hsmall : g.length < 2
    · rw [if_pos hsmall]; simp
    · rw [if_neg hsmall, flatMap_map_fst]
      unfold sweepClusters
      rw [sweepClustersGo_flat]
      have hperm : ((sortByTimestamp g).map Prod.fst).Perm (g.map Prod.fst) :=
        (sortByTimestamp_perm g).map Prod.fst
      rw [hperm.count_eq]
  have hnd : ((allClusters thr msgs).flatMap (fun c => c.map Prod.fst)).Nodup :=
    List.nodup_iff_count_le_one.mpr hcl
  exact List.Nodup.sublist (markAll_fst_sublist (allClusters thr msgs) 0) hnd

theorem allClusters_cases (thr : Int) (msgs : List Message) (c : List (Nat × Message))
    (hc : c ∈ allClusters thr msgs) :
    ∃ g ∈ dupGroups (withIdx msgs), ¬ g.length < 2 ∧
      c ∈ sweepClusters thr (sortByTimestamp g) := by
  unfold allClusters at hc
  obtain ⟨g, hg, hcg⟩ := List.mem_flatMap.mp hc
  by_cases hsmall : g.length < 2
  · rw [if_pos hsmall] at hcg
    simp at hcg
  · rw [if_neg hsmall] at hcg
    exact ⟨g, hg, hsmall, hcg⟩

theorem allClusters_member_in_withIdx (thr : Int) (msgs : List Message)
    (c : List (Nat × Message)) (hc : c ∈ allClusters thr msgs) :
    ∀ p ∈ c, p ∈ withIdx msgs := by
  obtain ⟨g, hg, _, hcg⟩ := allClusters_cases thr msgs c hc
  intro p hp
  have hjoin : p ∈ (sweepClusters thr (sortByTimestamp g)).flatten :=
    List.mem_flatten.mpr ⟨c, hcg, hp⟩
  rw [show (sweepClusters thr (sortByTimestamp g)).flatten = sortByTimestamp g from
    sweepClustersGo_flat thr _ _] at hjoin
  have hgmem : p ∈ g := (sortByTimestamp_perm g).mem_iff.mp hjoin
  obtain ⟨k, _, hgk⟩ := List.mem_map.mp hg
  rw [← hgk] at hgmem
  exact ((mem_dupGroupOf _ _ p).mp hgmem).1

theorem allClusters_pairwise (thr : Int) (msgs : List Message)
    (c : List (Nat × Message)) (hc : c ∈ allClusters thr msgs) :
    c.Pairwise (fun x y => x.2.timestamp.time ≤ y.2.timestamp.time) := by
  obtain ⟨g, _, _, hcg⟩ := allClusters_cases thr msgs c hc
  have hsorted := sortByTimestamp_pairwise g
  have hsub : c.Sublist (sortByTimestamp g) :=
    sweepClustersGo_cluster_sublist thr _ _ c hcg
  exact List.Pairwise.sublist hsub hsorted

/-- C5: in every duplicate cluster with at least two members — clusters are
formed by grouping on the exact (content, sender, recipient, task-or-empty,
type) key, sorting each group by timestamp and sweeping it with the
two-second window — there is one shared generated group id such that every
member's output message carries that id, a duplicate count equal to the
cluster size, and `is_duplicate` true exactly for every member other than
the earliest (position 0, which has the minimal timestamp of the
cluster); all other messages of the input are returned in place. -/
theorem detectDuplicates_cluster_flags (msgs : List Message) (c : List (Nat × Message))
    (hc : c ∈ allClusters 2 msgs) (hlen : 2 ≤ c.length) :
    ∃ gid : String, ∀ (p : Nat) (im : Nat × Message), c.get? p = some im →
      (∀ hd, c.get? 0 = some hd → hd.2.timestamp.time ≤ im.2.timestamp.time) ∧
      msgs.get? im.1 = some im.2 ∧
      (detectDuplicates msgs).get? im.1 =
        some (applyDupFlags im.2 (decide (0 < p), gid, c.length)) := by
  obtain ⟨gid, hmem⟩ := markAll_mem_entries (allClusters 2 msgs) 0 c hc (by omega)
  refine ⟨gid, ?_⟩
  intro p im him
  have hmemc : im ∈ c := List.get?_mem him
  have hms : im ∈ withIdx msgs := allClusters_member_in_withIdx 2 msgs c hc im hmemc
  have hget : msgs.get? im.1 = some im.2 := mem_withIdx_get? hms
  have hentry : (im.1, (decide (0 < p), gid, c.length)) ∈ clusterEntries c gid := by
    have hcg := clusterEntries_get? c gid p
    rw [him] at hcg
    exact List.get?_mem hcg
  have hassign : (im.1, (decide (0 < p), gid, c.length)) ∈ dupAssignment 2 msgs :=
    hmem _ hentry
  have hlook : natLookup (dupAssignment 2 msgs) im.1 =
      some (decide (0 < p), gid, c.length) :=
    natLookup_of_mem _ im.1 _ (dupAssignment_fst_nodup 2 msgs) hassign
  refine ⟨?_, hget, ?_⟩
  · intro hd hhd
    have hpw := allClusters_pairwise 2 msgs c hc
    cases c with
    | nil => simp at hhd
    | cons c0 ctail =>
      simp only [List.get?_cons_zero] at hhd
      injection hhd with hhd
      subst hhd
      rcases List.mem_cons.mp hmemc with rfl | hmem'
      · exact le_refl _
      · exact (List.pairwise_cons.mp hpw).1 im hmem'
  · unfold detectDuplicates detectDuplicatesWith
    rw [mapWithIdx_get?, hget]
    simp only [Option.map_some']
    rw [hlook]

/-- C5 witness (Scenario 6): two identical messages one second apart form
one cluster; applying the theorem to it yields the shared group id, count 2
and the duplicate flag on every member but the earliest. -/
theorem detectDuplicates_cluster_flags_witness :
    ([(0, scenario6M1), (1, scenario6M2)] ∈ allClusters 2 [scenario6M1, scenario6M2] ∧
      2 ≤ ([(0, scenario6M1), (1, scenario6M2)] : List (Nat × Message)).length) ∧
    (∃ gid : String, ∀ (p : Nat) (im : Nat × Message),
      ([(0, scenario6M1), (1, scenario6M2)] : List (Nat × Message)).get? p = some im →
      (∀ hd, ([(0, scenario6M1), (1, scenario6M2)] : List (Nat × Message)).get? 0 = some hd →
        hd.2.timestamp.time ≤ im.2.timestamp.time) ∧
      [scenario6M1, scenario6M2].get? im.1 = some im.2 ∧
      (detectDuplicates [scenario6M1, scenario6M2]).get? im.1 =
        some (applyDupFlags im.2 (decide (0 < p), gid,
          ([(0, scenario6M1), (1, scenario6M2)] : List (Nat × Message)).length))) :=
  ⟨⟨by decide, by decide⟩,
    detectDuplicates_cluster_flags [scenario6M1, scenario6M2]
      [(0, scenario6M1), (1, scenario6M2)] (by decide) (by decide)⟩

end Cato
